import Mathlib

/-!
Verification development for the `sqliteparser` repository
(`src/sqliteparser/parser.py`): a shallow embedding of the recursive-descent
SQL parser, together with theorems settling the frozen claims about it.

The parser consumes a token stream produced by the external lexer module
(`sqliteparser/lexer.py`, not part of the sources; specified in §4.1 of the
spec).  The token-stream cursor is therefore modelled from the spec, and the
parser functions are translated line by line from `parser.py`.  Python
exceptions are modelled by an `Except` result; loops and the recursive
expression grammar take an explicit fuel parameter (every loop in the source
consumes at least one token per iteration, so ample fuel reproduces the
source's behaviour exactly).
-/

namespace SQLite

/-- Token kinds, per §3 of the spec: keyword, identifier, string literal,
integer literal, dot, comma, left-paren, right-paren, semicolon,
operator-symbol.  `EOF` is the distinguished end-of-input kind produced by
the modelled stream once exhausted (see `currentT`). -/
inductive TokenType where
  | KEYWORD
  | IDENTIFIER
  | STRING
  | INTEGER
  | DOT
  | COMMA
  | LEFT_PARENTHESIS
  | RIGHT_PARENTHESIS
  | SEMICOLON
  | OPERATOR
  | EOF
deriving DecidableEq, Repr

/-- A token: `{ kind, text }` (the source's `token.type` / `token.value`;
positions are irrelevant to the claims and omitted). -/
structure Token where
  type : TokenType
  value : String
deriving DecidableEq, Repr

/-- `ast.OnDeleteOrUpdate` (the spec's `Action`). -/
inductive OnDeleteOrUpdate where
  | SET_NULL
  | SET_DEFAULT
  | CASCADE
  | RESTRICT
  | NO_ACTION
deriving DecidableEq, Repr

/-- `ast.ForeignKeyMatch` (the spec's `MatchKind`).  The source's `PARTIAL`
member is named `partialKind` here (`partial` is reserved). -/
inductive ForeignKeyMatch where
  | SIMPLE
  | FULL
  | partialKind
deriving DecidableEq, Repr

/-- `ast.CollatingSequence`. -/
inductive CollatingSequence where
  | BINARY
  | NOCASE
  | RTRIM
deriving DecidableEq, Repr

/-- `ast.ForeignKeyConstraint`: the fields set by `match_foreign_key_clause`.
The source's `match` field is named `matchKind` (`match` is reserved). -/
structure ForeignKeyConstraint where
  columns : List String
  foreign_table : String
  foreign_columns : List String
  on_delete : Option OnDeleteOrUpdate
  on_update : Option OnDeleteOrUpdate
  matchKind : Option ForeignKeyMatch
  deferrable : Option Bool
  initially_deferred : Option Bool
deriving DecidableEq, Repr

/-- Expression nodes (`ast.Identifier`, `ast.String`, `ast.Integer`,
`ast.Infix`); the infix constructor is named `infixE` (`infix` is reserved). -/
inductive Expression where
  | identifier (name : String)
  | stringLit (value : String)
  | integerLit (value : Int)
  | infixE (operator : String) (left right : Expression)
deriving DecidableEq, Repr

/-- Column constraints attachable by `match_column` (`ast.PrimaryKeyConstraint`,
`ast.NotNullConstraint`, `ast.CheckConstraint`, `ast.CollateConstraint`, and an
inline `ast.ForeignKeyConstraint`). -/
inductive ColumnConstraint where
  | primaryKey
  | notNull
  | check (e : Expression)
  | collate (c : CollatingSequence)
  | foreignKey (fk : ForeignKeyConstraint)
deriving DecidableEq, Repr

/-- `ast.Column`; the source's `type` field is named `ctype` (`type` is
reserved). -/
structure Column where
  name : String
  ctype : String
  constraints : List ColumnConstraint
deriving DecidableEq, Repr

/-- A create-statement name: plain identifier or `ast.TableName(schema, table)`. -/
inductive CreateName where
  | plain (name : String)
  | qualified (schema table : String)
deriving DecidableEq, Repr

/-- Statements (`ast.CreateStatement` with its constant `as_select=None` field
omitted, and `ast.SelectStatement`).  The `constraints` list holds `Option`
values: `match_column_or_constraint` has no `else` branch in the source, so
Python's `None` can be appended to the constraints list (see the C2 claim). -/
inductive Statement where
  | create (name : CreateName) (columns : List Column)
      (constraints : List (Option ForeignKeyConstraint))
      (temporary without_rowid if_not_exists : Bool)
  | select (columns : List Expression)
deriving DecidableEq, Repr

/-- Parser outcomes: `SQLiteParserError` (syntax error),
`SQLiteParserImpossibleError` (internal error), and the model-only fuel
exhaustion marker (never reached at the fuel values used below; every source
loop consumes at least one token per iteration). -/
inductive PError where
  | syntaxError
  | impossibleError
  | outOfFuel
deriving DecidableEq, Repr

/-- An `expecting` matcher, per §4.1 of the spec: a token kind, a literal
keyword value, or a (kind, value) pair. -/
inductive Expecting where
  | kind (t : TokenType)
  | word (s : String)
  | pair (t : TokenType) (s : String)
deriving DecidableEq, Repr

/-- Whether a token satisfies one matcher: a bare string matches a keyword
with that value; a kind matches any token of that kind. -/
def matchesE (t : Token) : Expecting → Bool
  | .kind k => t.type = k
  | .word w => t.type = .KEYWORD && t.value = w
  | .pair k w => t.type = k && t.value = w

/-- Modelled from the spec (§4.1, token stream protocol; `lexer.py` is not
among the sources): the cursor over the token sequence is the list of not yet
consumed tokens, whose head is the current token.  Once the stream is
exhausted it yields this distinguished end-of-input token, which satisfies no
`expecting` matcher and whose value names no operator; the spec's §8 examples
(expressions terminate cleanly at end of input, a lone `SELECT` fails with a
syntax error) require exactly this behaviour. -/
def eofToken : Token := ⟨.EOF, ""⟩

/-- Modelled from the spec: `current()` — the token at the cursor. -/
def currentT (s : List Token) : Token := s.headD eofToken

/-- Modelled from the spec: `advance()` — move the cursor forward one
position and return the token at the new position. -/
def advanceT (s : List Token) : Token × List Token := (currentT s.tail, s.tail)

/-- Modelled from the spec: `advance(expecting=...)` — advance, then validate
the next token against the matcher set, failing with a syntax error when none
matches. -/
def advanceE (es : List Expecting) (s : List Token) :
    Except PError (Token × List Token) :=
  let (t, s') := advanceT s
  if es.any (matchesE t) then .ok (t, s') else .error .syntaxError

/-- Modelled from the spec: `check(expecting)` — validate the current token
without moving the cursor. -/
def checkE (es : List Expecting) (s : List Token) : Except PError Token :=
  if es.any (matchesE (currentT s)) then .ok (currentT s) else .error .syntaxError

/-- Modelled from the spec: `push(token)` — undo the single-token lookahead
taken by the immediately preceding `advance` (the only use, at the
`WITHOUT ROWID` probe).  In this cursor model the advanced-to token is still
the unconsumed head, so restoring it as current leaves the state unchanged. -/
def pushT (_ : Token) (s : List Token) : List Token := s

/-- Modelled from the spec: `done()` — no tokens remain.  The stream is
scanned lazily: the current token has already been read from the source, so
once a matcher has taken its lookahead, `done()` reports whether anything
remains beyond the current token.  The spec's §8 examples force this reading:
`CREATE TABLE t (id INTEGER PRIMARY KEY, name TEXT NOT NULL)` and
`CREATE TEMP TABLE IF NOT EXISTS t (x INTEGER) WITHOUT ROWID` (whose final
fragments leave the matcher holding a lookahead at the last token) must
parse, while a lone `CREATE` must fail with a syntax error — so at the very
first loop entry, where nothing has been scanned yet, done-ness is instead
emptiness of the whole input (see `parse`). -/
def doneT (s : List Token) : Bool := s.tail.isEmpty

/-- The `PRECEDENCE` table (`PRECEDENCE.get(token.value)`). -/
def PRECEDENCE (v : String) : Option Nat :=
  match v with
  | "OR" => some 0
  | "AND" => some 1
  | "=" => some 2
  | "==" => some 2
  | "!=" => some 2
  | "<>" => some 2
  | "IS" => some 2
  | "IN" => some 2
  | "LIKE" => some 2
  | "GLOB" => some 2
  | "MATCH" => some 2
  | "REGEXP" => some 2
  | "<" => some 3
  | "<=" => some 3
  | ">" => some 3
  | ">=" => some 3
  | "<<" => some 4
  | ">>" => some 4
  | "&" => some 4
  | "|" => some 4
  | "+" => some 5
  | "-" => some 5
  | "*" => some 6
  | "/" => some 6
  | "%" => some 6
  | "||" => some 7
  | _ => none

/-- Base-10 value of a digit sequence. -/
def digitsVal : List Char → Nat → Nat
  | [], acc => acc
  | c :: cs, acc => digitsVal cs (acc * 10 + (c.toNat - 48))

/-- Python's `int(token.value)` on an integer-literal token: base-10 signed
integer (the lexer only produces numeric text for `INTEGER` tokens). -/
def intVal (s : String) : Int :=
  match s.data with
  | '-' :: cs => -(digitsVal cs 0 : Int)
  | cs => (digitsVal cs 0 : Int)

mutual

/-- `Parser.match_prefix`.  The fuel only bounds the recursion through
parenthesized sub-expressions. -/
def matchPrefixE : Nat → List Token → Except PError (Expression × List Token)
  | 0, _ => .error .outOfFuel
  | fuel + 1, s =>
    let token := currentT s
    match token.type with
    | .IDENTIFIER => .ok (.identifier token.value, (advanceT s).2)
    | .LEFT_PARENTHESIS =>
      let s := (advanceT s).2
      match matchExpressionAux fuel (-1) s with
      | .error e => .error e
      | .ok (e, s) =>
        match advanceE [.kind .RIGHT_PARENTHESIS] s with
        | .error e => .error e
        | .ok (_, s) => .ok (e, (advanceT s).2)
    | .STRING => .ok (.stringLit token.value, (advanceT s).2)
    | .INTEGER => .ok (.integerLit (intVal token.value), (advanceT s).2)
    | _ => .error .syntaxError

/-- `Parser.match_expression`: parse one prefix, then run the climbing loop.
The source's `if token is None: break` guard cannot fire under the modelled
stream (the cursor yields `eofToken` rather than `None` when exhausted); the
following `PRECEDENCE.get` lookup on the end-of-input token value returns
nothing and exits the loop identically. -/
def matchExpressionAux : Nat → Int → List Token →
    Except PError (Expression × List Token)
  | 0, _, _ => .error .outOfFuel
  | fuel + 1, precedence, s =>
    match matchPrefixE fuel s with
    | .error e => .error e
    | .ok (left, s) => exprLoop fuel precedence left s

/-- The `while True` climbing loop inside `Parser.match_expression`. -/
def exprLoop : Nat → Int → Expression → List Token →
    Except PError (Expression × List Token)
  | 0, _, _, _ => .error .outOfFuel
  | fuel + 1, precedence, left, s =>
    let token := currentT s
    match PRECEDENCE token.value with
    | none => .ok (left, s)
    | some p =>
      if precedence ≥ (p : Int) then .ok (left, s)
      else
        match matchInfixE fuel left p s with
        | .error e => .error e
        | .ok (left, s) => exprLoop fuel precedence left s

/-- `Parser.match_infix`. -/
def matchInfixE : Nat → Expression → Nat → List Token →
    Except PError (Expression × List Token)
  | 0, _, _, _ => .error .outOfFuel
  | fuel + 1, left, precedence, s =>
    let operator_token := currentT s
    let s := (advanceT s).2
    match matchExpressionAux fuel (precedence : Int) s with
    | .error e => .error e
    | .ok (right, s) => .ok (.infixE operator_token.value left right, s)
end

/-- `Parser.match_expression` at its default floor (`precedence=-1`). -/
def matchExpression (fuel : Nat) (s : List Token) :
    Except PError (Expression × List Token) :=
  matchExpressionAux fuel (-1) s

/-- `Parser.match_identifier_list`: consume identifiers and commas, in any
interleaving, until a token that is neither; return the identifiers in order. -/
def matchIdentifierList : List Token → List String × List Token
  | [] => ([], [])
  | t :: ts =>
    if t.type = .IDENTIFIER then
      let (ids, s') := matchIdentifierList ts
      (t.value :: ids, s')
    else if t.type = .COMMA then matchIdentifierList ts
    else ([], t :: ts)

/-- The five optional-qualifier fields accumulated by the
`match_foreign_key_clause` loop. -/
structure FKFields where
  on_delete : Option OnDeleteOrUpdate
  on_update : Option OnDeleteOrUpdate
  matchKind : Option ForeignKeyMatch
  deferrable : Option Bool
  initially_deferred : Option Bool
deriving DecidableEq, Repr

/-- All qualifier fields start out `None`. -/
def initFields : FKFields := ⟨none, none, none, none, none⟩

/-- The `ON DELETE|UPDATE <action>` tail (lines 194-209): decode the already
validated action keyword, consuming `NULL|DEFAULT` after `SET` and `ACTION`
after `NO`; the trailing `else` raising the impossible error mirrors line
209. -/
def actionStep (t2 : Token) (s : List Token) :
    Except PError (OnDeleteOrUpdate × List Token) :=
  if t2.value = "SET" then
    match advanceE [.word "NULL", .word "DEFAULT"] s with
    | .error e => .error e
    | .ok (t3, s) =>
      .ok ((if t3.value = "NULL" then .SET_NULL else .SET_DEFAULT), s)
  else if t2.value = "NO" then
    match advanceE [.word "ACTION"] s with
    | .error e => .error e
    | .ok (_, s) => .ok (.NO_ACTION, s)
  else if t2.value = "CASCADE" then .ok (.CASCADE, s)
  else if t2.value = "RESTRICT" then .ok (.RESTRICT, s)
  else .error .impossibleError

/-- The polarity part of the `[NOT] DEFERRABLE` arm (lines 226-230). -/
def deferrablePolarity (token : Token) (f : FKFields) (s : List Token) :
    Except PError (FKFields × List Token) :=
  if token.value = "NOT" then
    match advanceE [.word "DEFERRABLE"] s with
    | .error e => .error e
    | .ok (_, s) => .ok ({ f with deferrable := some false }, s)
  else .ok ({ f with deferrable := some true }, s)

/-- The `[NOT] DEFERRABLE [INITIALLY DEFERRED|IMMEDIATE]` arm of the
qualifier loop (lines 225-239); it always breaks the loop. -/
def deferrableStep (token : Token) (f : FKFields) (s : List Token) :
    Except PError (FKFields × List Token) :=
  match deferrablePolarity token f s with
  | .error e => .error e
  | .ok (f, s) =>
    let (t2, s) := advanceT s
    if ¬(t2.type = .KEYWORD ∧ t2.value = "INITIALLY") then .ok (f, s)
    else
      match advanceE [.word "DEFERRED", .word "IMMEDIATE"] s with
      | .error e => .error e
      | .ok (t3, s) =>
        let f := { f with initially_deferred := some (t3.value == "DEFERRED") }
        .ok (f, (advanceT s).2)

/-- The `while True` qualifier loop of `Parser.match_foreign_key_clause`
(lines 188-243).  `token` is the loop's current-token variable; each arm
either consumes a qualifier and re-enters the loop or breaks. -/
def clauseLoop : Nat → FKFields → Token → List Token →
    Except PError (FKFields × List Token)
  | 0, _, _, _ => .error .outOfFuel
  | fuel + 1, f, token, s =>
    if token.value = "ON" then
      match advanceE [.word "DELETE", .word "UPDATE"] s with
      | .error e => .error e
      | .ok (delete_or_update, s) =>
        match advanceE [.word "SET", .word "CASCADE", .word "RESTRICT",
            .word "NO"] s with
        | .error e => .error e
        | .ok (t2, s) =>
          match actionStep t2 s with
          | .error e => .error e
          | .ok (value, s) =>
            let f := if delete_or_update.value = "DELETE" then
                { f with on_delete := some value }
              else { f with on_update := some value }
            let (token, s) := advanceT s
            clauseLoop fuel f token s
    else if token.value = "MATCH" then
      match advanceE [.word "SIMPLE", .word "FULL", .word "PARTIAL"] s with
      | .error e => .error e
      | .ok (match_token, s) =>
        let m : ForeignKeyMatch :=
          if match_token.value = "FULL" then .FULL
          else if match_token.value = "PARTIAL" then .partialKind
          else .SIMPLE
        let f := { f with matchKind := some m }
        let (token, s) := advanceT s
        clauseLoop fuel f token s
    else if token.value = "NOT" ∨ token.value = "DEFERRABLE" then
      deferrableStep token f s
    else .ok (f, s)

/-- The optional parenthesized foreign-column list of
`match_foreign_key_clause` (lines 173-180): on a left parenthesis consume the
identifier list and the closing parenthesis and take one more lookahead;
otherwise the column list is empty and the lookahead token stands. -/
def foreignColumnsStep (token : Token) (s : List Token) :
    Except PError ((List String × Token) × List Token) :=
  if token.type = .LEFT_PARENTHESIS then
    let s := (advanceT s).2
    let (foreign_columns, s) := matchIdentifierList s
    match checkE [.kind .RIGHT_PARENTHESIS] s with
    | .error e => .error e
    | .ok _ =>
      let (token, s) := advanceT s
      .ok ((foreign_columns, token), s)
  else .ok (([], token), s)

/-- `Parser.match_foreign_key_clause` (the `columns` argument is passed
through to the constructed node). -/
def matchForeignKeyClause (fuel : Nat) (columns : List String)
    (s : List Token) : Except PError (ForeignKeyConstraint × List Token) :=
  match checkE [.word "REFERENCES"] s with
  | .error e => .error e
  | .ok _ =>
    match advanceE [.kind .IDENTIFIER] s with
    | .error e => .error e
    | .ok (ftTok, s) =>
      let (token, s) := advanceT s
      match foreignColumnsStep token s with
      | .error e => .error e
      | .ok ((foreign_columns, token), s) =>
        match clauseLoop fuel initFields token s with
        | .error e => .error e
        | .ok (f, s) =>
          .ok (⟨columns, ftTok.value, foreign_columns, f.on_delete,
            f.on_update, f.matchKind, f.deferrable, f.initially_deferred⟩, s)

/-- `Parser.match_foreign_key_constraint` (the table-level
`FOREIGN KEY (...)` form). -/
def matchForeignKeyConstraint (fuel : Nat) (s : List Token) :
    Except PError (ForeignKeyConstraint × List Token) :=
  match checkE [.word "FOREIGN"] s with
  | .error e => .error e
  | .ok _ =>
    match advanceE [.word "KEY"] s with
    | .error e => .error e
    | .ok (_, s) =>
      match advanceE [.kind .LEFT_PARENTHESIS] s with
      | .error e => .error e
      | .ok (_, s) =>
        let s := (advanceT s).2
        let (columns, s) := matchIdentifierList s
        match checkE [.kind .RIGHT_PARENTHESIS] s with
        | .error e => .error e
        | .ok _ => matchForeignKeyClause fuel columns ((advanceT s).2)

/-- `Parser.match_not_null_constraint`. -/
def matchNotNullConstraint (s : List Token) :
    Except PError (ColumnConstraint × List Token) :=
  match checkE [.word "NOT"] s with
  | .error e => .error e
  | .ok _ =>
    match advanceE [.word "NULL"] s with
    | .error e => .error e
    | .ok (_, s) => .ok (.notNull, (advanceT s).2)

/-- `Parser.match_primary_key_constraint`. -/
def matchPrimaryKeyConstraint (s : List Token) :
    Except PError (ColumnConstraint × List Token) :=
  match checkE [.word "PRIMARY"] s with
  | .error e => .error e
  | .ok _ =>
    match advanceE [.word "KEY"] s with
    | .error e => .error e
    | .ok (_, s) => .ok (.primaryKey, (advanceT s).2)

/-- `Parser.match_check_constraint`. -/
def matchCheckConstraint (fuel : Nat) (s : List Token) :
    Except PError (ColumnConstraint × List Token) :=
  match checkE [.word "CHECK"] s with
  | .error e => .error e
  | .ok _ =>
    match advanceE [.kind .LEFT_PARENTHESIS] s with
    | .error e => .error e
    | .ok (_, s) =>
      let s := (advanceT s).2
      match matchExpression fuel s with
      | .error e => .error e
      | .ok (expr, s) =>
        match checkE [.kind .RIGHT_PARENTHESIS] s with
        | .error e => .error e
        | .ok _ => .ok (.check expr, (advanceT s).2)

/-- `Parser.match_collate_constraint`: the sequence must be exactly one of the
three identifiers; the trailing `else` raising the impossible error mirrors
the source (lines 287-294). -/
def matchCollateConstraint (s : List Token) :
    Except PError (ColumnConstraint × List Token) :=
  match checkE [.word "COLLATE"] s with
  | .error e => .error e
  | .ok _ =>
    match advanceE [.pair .IDENTIFIER "BINARY", .pair .IDENTIFIER "NOCASE",
        .pair .IDENTIFIER "RTRIM"] s with
    | .error e => .error e
    | .ok (sequence_token, s) =>
      let s := (advanceT s).2
      if sequence_token.value = "NOCASE" then .ok (.collate .NOCASE, s)
      else if sequence_token.value = "RTRIM" then .ok (.collate .RTRIM, s)
      else if sequence_token.value = "BINARY" then .ok (.collate .BINARY, s)
      else .error .impossibleError

/-- The optional trailing-constraint dispatch of `Parser.match_column`
(lines 141-151): choose by keyword, or attach no constraint leaving the
lookahead token current. -/
def columnConstraintStep (fuel : Nat) (token : Token) (s : List Token) :
    Except PError (List ColumnConstraint × List Token) :=
  if token.type = .KEYWORD ∧ token.value = "PRIMARY" then
    (matchPrimaryKeyConstraint s).map (fun (c, s) => ([c], s))
  else if token.type = .KEYWORD ∧ token.value = "NOT" then
    (matchNotNullConstraint s).map (fun (c, s) => ([c], s))
  else if token.type = .KEYWORD ∧ token.value = "CHECK" then
    (matchCheckConstraint fuel s).map (fun (c, s) => ([c], s))
  else if token.type = .KEYWORD ∧ token.value = "COLLATE" then
    (matchCollateConstraint s).map (fun (c, s) => ([c], s))
  else if token.type = .KEYWORD ∧ token.value = "REFERENCES" then
    (matchForeignKeyClause fuel [] s).map
      (fun (fk, s) => ([.foreignKey fk], s))
  else .ok ([], s)

/-- `Parser.match_column`: name, declared type, and at most one trailing
constraint chosen by keyword dispatch. -/
def matchColumn (fuel : Nat) (s : List Token) :
    Except PError (Column × List Token) :=
  match checkE [.kind .IDENTIFIER] s with
  | .error e => .error e
  | .ok name_token =>
    match advanceE [.kind .IDENTIFIER] s with
    | .error e => .error e
    | .ok (type_token, s) =>
      let (token, s) := advanceT s
      match columnConstraintStep fuel token s with
      | .error e => .error e
      | .ok (constraints, s) =>
        .ok (⟨name_token.value, type_token.value, constraints⟩, s)

/-- Either result of the column-or-constraint dispatch. -/
inductive ColumnOrConstraint where
  | column (c : Column)
  | constraint (fk : ForeignKeyConstraint)
deriving DecidableEq, Repr

/-- `Parser.match_column_or_constraint` (lines 129-134).  The source has no
`else` branch: when the current token is neither the keyword `FOREIGN` nor an
identifier, the Python function falls through and returns `None`, modelled by
`none`, with the stream untouched. -/
def matchColumnOrConstraint (fuel : Nat) (s : List Token) :
    Except PError (Option ColumnOrConstraint × List Token) :=
  let token := currentT s
  if token.type = .KEYWORD ∧ token.value = "FOREIGN" then
    (matchForeignKeyConstraint fuel s).map
      (fun (fk, s) => (some (.constraint fk), s))
  else if token.type = .IDENTIFIER then
    (matchColumn fuel s).map (fun (c, s) => (some (.column c), s))
  else .ok (none, s)

/-- Filing one dispatch result into the element lists (lines 94-100): a
column while `constraints` is already non-empty raises the syntax error of
line 96; any other result — a constraint or Python's `None` — is appended to
the constraints list. -/
def elementStep (cc : Option ColumnOrConstraint) (columns : List Column)
    (constraints : List (Option ForeignKeyConstraint)) :
    Except PError (List Column × List (Option ForeignKeyConstraint)) :=
  match cc with
  | some (.column c) =>
    if constraints.isEmpty then .ok (columns ++ [c], constraints)
    else .error .syntaxError
  | some (.constraint fk) => .ok (columns, constraints ++ [some fk])
  | none => .ok (columns, constraints ++ [none])

/-- The element loop of `Parser.match_create_statement` (lines 88-104): one
iteration per column/constraint element; a column arriving while `constraints`
is non-empty raises the syntax error of line 96. -/
def createElements : Nat → List Column → List (Option ForeignKeyConstraint) →
    List Token →
    Except PError ((List Column × List (Option ForeignKeyConstraint)) × List Token)
  | 0, _, _, _ => .error .outOfFuel
  | fuel + 1, columns, constraints, s =>
    let (token, s) := advanceT s
    if token.type = .RIGHT_PARENTHESIS then .ok ((columns, constraints), s)
    else
      match matchColumnOrConstraint fuel s with
      | .error e => .error e
      | .ok (cc, s) =>
        match elementStep cc columns constraints with
        | .error e => .error e
        | .ok (columns, constraints) =>
          match checkE [.kind .COMMA, .kind .RIGHT_PARENTHESIS] s with
          | .error e => .error e
          | .ok token =>
            if token.type = .RIGHT_PARENTHESIS then .ok ((columns, constraints), s)
            else createElements fuel columns constraints s

/-- The optional `TEMPORARY|TEMP` prefix of the create matcher
(lines 59-64). -/
def temporaryStep (token : Token) (s : List Token) :
    Except PError (Bool × List Token) :=
  if token.value = "TEMPORARY" ∨ token.value = "TEMP" then
    match advanceE [.word "TABLE"] s with
    | .error e => .error e
    | .ok (_, s) => .ok (true, s)
  else .ok (false, s)

/-- The optional `IF NOT EXISTS` prefix and the name token (lines 66-74). -/
def ifNotExistsStep (token : Token) (s : List Token) :
    Except PError ((Bool × Token) × List Token) :=
  if token.value = "IF" then
    match advanceE [.word "NOT"] s with
    | .error e => .error e
    | .ok (_, s) =>
      match advanceE [.word "EXISTS"] s with
      | .error e => .error e
      | .ok (_, s) =>
        match advanceE [.kind .IDENTIFIER] s with
        | .error e => .error e
        | .ok (name_token, s) => .ok ((true, name_token), s)
  else .ok ((false, token), s)

/-- The plain versus schema-qualified table name (lines 76-84). -/
def tableNameStep (name_token token : Token) (s : List Token) :
    Except PError (CreateName × List Token) :=
  if token.type = .DOT then
    match advanceE [.kind .IDENTIFIER] s with
    | .error e => .error e
    | .ok (table_name_token, s) =>
      match advanceE [.kind .LEFT_PARENTHESIS] s with
      | .error e => .error e
      | .ok (_, s) =>
        .ok (.qualified name_token.value table_name_token.value, s)
  else .ok (.plain name_token.value, s)

/-- The optional trailing `WITHOUT ROWID` (lines 106-112); when the lookahead
token is not `WITHOUT` it is pushed back. -/
def withoutRowidStep (token : Token) (s : List Token) :
    Except PError (Bool × List Token) :=
  if token.type = .KEYWORD ∧ token.value = "WITHOUT" then
    match advanceE [.pair .IDENTIFIER "ROWID"] s with
    | .error e => .error e
    | .ok (_, s) => .ok (true, s)
  else .ok (false, pushT token s)

/-- `Parser.match_create_statement`. -/
def matchCreateStatement (fuel : Nat) (s : List Token) :
    Except PError (Statement × List Token) :=
  match advanceE [.word "TABLE", .word "TEMPORARY", .word "TEMP"] s with
  | .error e => .error e
  | .ok (token, s) =>
    match temporaryStep token s with
    | .error e => .error e
    | .ok (temporary, s) =>
      match advanceE [.word "IF", .kind .IDENTIFIER] s with
      | .error e => .error e
      | .ok (token, s) =>
        match ifNotExistsStep token s with
        | .error e => .error e
        | .ok ((if_not_exists, name_token), s) =>
          match advanceE [.kind .DOT, .kind .LEFT_PARENTHESIS] s with
          | .error e => .error e
          | .ok (token, s) =>
            match tableNameStep name_token token s with
            | .error e => .error e
            | .ok (name, s) =>
              match createElements fuel [] [] s with
              | .error e => .error e
              | .ok ((columns, constraints), s) =>
                let (token, s) := advanceT s
                match withoutRowidStep token s with
                | .error e => .error e
                | .ok (without_rowid, s) =>
                  .ok (.create name columns constraints temporary
                    without_rowid if_not_exists, s)

/-- `Parser.match_select_statement`. -/
def matchSelectStatement (fuel : Nat) (s : List Token) :
    Except PError (Statement × List Token) :=
  let s := (advanceT s).2
  match matchExpression fuel s with
  | .error e => .error e
  | .ok (e, s) => .ok (.select [e], s)

/-- `Parser.match_statement`: dispatch on the leading keyword. -/
def matchStatement (fuel : Nat) (s : List Token) :
    Except PError (Statement × List Token) :=
  let token := currentT s
  if token.type = .KEYWORD then
    if token.value = "CREATE" then matchCreateStatement fuel s
    else if token.value = "SELECT" then matchSelectStatement fuel s
    else .error .syntaxError
  else .error .syntaxError

/-- The `while True` loop of `Parser.parse`, entered with `done()` known
false: match a statement; when not done, `advance(expecting=[SEMICOLON])`;
the `if self.lexer.done(): break` at the top of the next iteration is the
trailing `doneT` test before the recursive call. -/
def parseLoop : Nat → List Statement → List Token → Except PError (List Statement)
  | 0, _, _ => .error .outOfFuel
  | fuel + 1, acc, s =>
    match matchStatement fuel s with
    | .error e => .error e
    | .ok (st, s) =>
      let acc := acc ++ [st]
      if doneT s then .ok acc
      else
        match advanceE [.kind .SEMICOLON] s with
        | .error e => .error e
        | .ok (_, s) => if doneT s then .ok acc else parseLoop fuel acc s

/-- The module-level `parse(program)` entry point, on an already lexed token
sequence.  The first `done()` test of the loop precedes any scanning, so it
is emptiness of the whole input (see `doneT`).  The fuel bound is generous:
every loop of the source consumes at least one token per iteration and the
call depth is bounded by the input length, so this value never runs out. -/
def parse (toks : List Token) : Except PError (List Statement) :=
  if toks.isEmpty then .ok [] else parseLoop (4 * toks.length + 16) [] toks

/-- Shorthand for building a keyword token. -/
def kw (v : String) : Token := ⟨.KEYWORD, v⟩

/-- Shorthand for building an identifier token. -/
def ident (v : String) : Token := ⟨.IDENTIFIER, v⟩

/-- Shorthand for building an integer-literal token. -/
def intTok (v : String) : Token := ⟨.INTEGER, v⟩

/-- Shorthand for building an operator token. -/
def opTok (v : String) : Token := ⟨.OPERATOR, v⟩

/-- Left parenthesis token. -/
def lpar : Token := ⟨.LEFT_PARENTHESIS, "("⟩

/-- Right parenthesis token. -/
def rpar : Token := ⟨.RIGHT_PARENTHESIS, ")"⟩

/-- Comma token. -/
def commaTok : Token := ⟨.COMMA, ","⟩

/-- Semicolon token. -/
def semiTok : Token := ⟨.SEMICOLON, ";"⟩

/-! ## Specification-side helpers for the claims -/

/-- Token is an identifier or a comma (the tokens `match_identifier_list`
consumes). -/
def identOrComma (t : Token) : Bool := t.type == .IDENTIFIER || t.type == .COMMA

/-- The identifier value contributed by a token to an identifier list. -/
def identName (t : Token) : Option String :=
  if t.type = .IDENTIFIER then some t.value else none

/-- The three non-deferrability qualifier categories of a foreign-key clause. -/
inductive QCat where
  | cDelete
  | cUpdate
  | cMatch
deriving DecidableEq, Repr

/-- An abstract non-deferrability qualifier: an `ON DELETE` action, an
`ON UPDATE` action, or a `MATCH` kind. -/
inductive Qualifier where
  | qOnDelete (a : OnDeleteOrUpdate)
  | qOnUpdate (a : OnDeleteOrUpdate)
  | qMatch (m : ForeignKeyMatch)
deriving DecidableEq, Repr

/-- The category of a qualifier. -/
def category : Qualifier → QCat
  | .qOnDelete _ => .cDelete
  | .qOnUpdate _ => .cUpdate
  | .qMatch _ => .cMatch

/-- The keyword spelling of an `ON DELETE`/`ON UPDATE` action. -/
def actionToks : OnDeleteOrUpdate → List Token
  | .SET_NULL => [kw "SET", kw "NULL"]
  | .SET_DEFAULT => [kw "SET", kw "DEFAULT"]
  | .CASCADE => [kw "CASCADE"]
  | .RESTRICT => [kw "RESTRICT"]
  | .NO_ACTION => [kw "NO", kw "ACTION"]

/-- The keyword spelling of a `MATCH` kind. -/
def matchWord : ForeignKeyMatch → String
  | .SIMPLE => "SIMPLE"
  | .FULL => "FULL"
  | .partialKind => "PARTIAL"

/-- The token spelling of one qualifier. -/
def renderQ : Qualifier → List Token
  | .qOnDelete a => kw "ON" :: kw "DELETE" :: actionToks a
  | .qOnUpdate a => kw "ON" :: kw "UPDATE" :: actionToks a
  | .qMatch m => [kw "MATCH", kw (matchWord m)]

/-- The token spelling of a qualifier sequence. -/
def renderQs : List Qualifier → List Token
  | [] => []
  | q :: qs => renderQ q ++ renderQs qs

/-- The effect of one qualifier on the accumulated fields (what one trip
around the source's qualifier loop stores). -/
def applyQ (f : FKFields) : Qualifier → FKFields
  | .qOnDelete a => { f with on_delete := some a }
  | .qOnUpdate a => { f with on_update := some a }
  | .qMatch m => { f with matchKind := some m }

/-- A complete foreign-key clause with the given qualifier spellings:
`REFERENCES tbl <qualifiers>`. -/
def mkClause (qs : List Qualifier) : List Token :=
  kw "REFERENCES" :: ident "tbl" :: renderQs qs

/-- The five qualifier fields that parsing `mkClause qs` produces (`none` when
parsing fails). -/
def clauseFields (cols : List String) (qs : List Qualifier) : Option FKFields :=
  match matchForeignKeyClause (qs.length + 1) cols (mkClause qs) with
  | .ok (fk, _) => some ⟨fk.on_delete, fk.on_update, fk.matchKind,
      fk.deferrable, fk.initially_deferred⟩
  | .error _ => none

/-- The field a given category stores into, read back as a qualifier. -/
def fieldGet : QCat → FKFields → Option Qualifier
  | .cDelete, f => f.on_delete.map .qOnDelete
  | .cUpdate, f => f.on_update.map .qOnUpdate
  | .cMatch, f => f.matchKind.map .qMatch

/-- The four arithmetic operators of the C4 claim. -/
inductive ArithOp where
  | plus
  | minus
  | times
  | divOp
deriving DecidableEq, Repr

/-- The operator token for an arithmetic operator. -/
def arithTok : ArithOp → Token
  | .plus => opTok "+"
  | .minus => opTok "-"
  | .times => opTok "*"
  | .divOp => opTok "/"

/-- The precedence tier the `PRECEDENCE` table assigns to an arithmetic
operator (`+ -` at 5, `* /` at 6). -/
def tierOf : ArithOp → Nat
  | .plus => 5
  | .minus => 5
  | .times => 6
  | .divOp => 6

/-- Append a trailing token to the final state of a matcher result (used to
relate a run on `toks` to the run on `toks ++ [semiTok]`). -/
def shiftR (t : Token) :
    Except PError (α × List Token) → Except PError (α × List Token)
  | .ok (v, s) => .ok (v, s ++ [t])
  | .error e => .error e

/-! ## Theorems -/

/-- Inverting a successful `advance(expecting=...)`: the returned token is
the new current token, the cursor moved one position, and the token satisfies
some matcher of the set. -/
theorem advanceE_ok {es : List Expecting} {s : List Token} {t : Token}
    {s' : List Token} (h : advanceE es s = .ok (t, s')) :
    t = currentT s.tail ∧ s' = s.tail ∧ es.any (matchesE t) = true := by
  simp only [advanceE, advanceT] at h
  split at h
  · cases h
    exact ⟨rfl, rfl, by assumption⟩
  · cases h

/-- Inverting a successful `check(expecting)`: the returned token is the
current token and satisfies some matcher of the set. -/
theorem checkE_ok {es : List Expecting} {s : List Token} {t : Token}
    (h : checkE es s = .ok t) :
    t = currentT s ∧ es.any (matchesE t) = true := by
  simp only [checkE] at h
  split at h
  · cases h
    exact ⟨rfl, by assumption⟩
  · cases h

/-- The foreign-key clause matcher copies its `columns` argument unchanged
into the constructed node (used for the C3 claim). -/
theorem matchForeignKeyClause_columns {fuel : Nat} {cols : List String}
    {s : List Token} {fk : ForeignKeyConstraint} {s' : List Token}
    (h : matchForeignKeyClause fuel cols s = .ok (fk, s')) :
    fk.columns = cols := by
  unfold matchForeignKeyClause at h
  cases h1 : checkE [.word "REFERENCES"] s with
  | error e => simp only [h1] at h; cases h
  | ok tk =>
  simp only [h1] at h
  cases h2 : advanceE [.kind .IDENTIFIER] s with
  | error e => simp only [h2] at h; cases h
  | ok p =>
  obtain ⟨ftTok, s1⟩ := p
  simp only [h2, advanceT] at h
  cases h3 : foreignColumnsStep (currentT s1.tail) s1.tail with
  | error e => simp only [h3] at h; cases h
  | ok p2 =>
  obtain ⟨⟨fcols, tok2⟩, s2⟩ := p2
  simp only [h3] at h
  cases h4 : clauseLoop fuel initFields tok2 s2 with
  | error e => simp only [h4] at h; cases h
  | ok p3 =>
  obtain ⟨f, s3⟩ := p3
  simp only [h4] at h
  cases h
  rfl

/-- The primary-key matcher only ever returns the `PrimaryKeyConstraint`
node. -/
theorem matchPrimaryKeyConstraint_ok {s : List Token} {c : ColumnConstraint}
    {s' : List Token} (h : matchPrimaryKeyConstraint s = .ok (c, s')) :
    c = .primaryKey := by
  unfold matchPrimaryKeyConstraint at h
  cases h1 : checkE [.word "PRIMARY"] s with
  | error e => simp only [h1] at h; cases h
  | ok tk =>
  simp only [h1] at h
  cases h2 : advanceE [.word "KEY"] s with
  | error e => simp only [h2] at h; cases h
  | ok p => obtain ⟨t1, s1⟩ := p; simp only [h2] at h; cases h; rfl

/-- The not-null matcher only ever returns the `NotNullConstraint` node. -/
theorem matchNotNullConstraint_ok {s : List Token} {c : ColumnConstraint}
    {s' : List Token} (h : matchNotNullConstraint s = .ok (c, s')) :
    c = .notNull := by
  unfold matchNotNullConstraint at h
  cases h1 : checkE [.word "NOT"] s with
  | error e => simp only [h1] at h; cases h
  | ok tk =>
  simp only [h1] at h
  cases h2 : advanceE [.word "NULL"] s with
  | error e => simp only [h2] at h; cases h
  | ok p => obtain ⟨t1, s1⟩ := p; simp only [h2] at h; cases h; rfl

/-- The check matcher only ever returns a `CheckConstraint` node. -/
theorem matchCheckConstraint_ok {fuel : Nat} {s : List Token}
    {c : ColumnConstraint} {s' : List Token}
    (h : matchCheckConstraint fuel s = .ok (c, s')) :
    ∃ e, c = .check e := by
  unfold matchCheckConstraint at h
  cases h1 : checkE [.word "CHECK"] s with
  | error e => simp only [h1] at h; cases h
  | ok tk =>
  simp only [h1] at h
  cases h2 : advanceE [.kind .LEFT_PARENTHESIS] s with
  | error e => simp only [h2] at h; cases h
  | ok p =>
  obtain ⟨t1, s1⟩ := p
  simp only [h2] at h
  cases h3 : matchExpression fuel ((advanceT s1).2) with
  | error e => simp only [h3] at h; cases h
  | ok p2 =>
  obtain ⟨expr, s2⟩ := p2
  simp only [h3] at h
  cases h4 : checkE [.kind .RIGHT_PARENTHESIS] s2 with
  | error e => simp only [h4] at h; cases h
  | ok tk2 => simp only [h4] at h; cases h; exact ⟨expr, rfl⟩

/-- The collate matcher only ever returns a `CollateConstraint` node. -/
theorem matchCollateConstraint_ok {s : List Token} {c : ColumnConstraint}
    {s' : List Token} (h : matchCollateConstraint s = .ok (c, s')) :
    ∃ q, c = .collate q := by
  unfold matchCollateConstraint at h
  cases h1 : checkE [.word "COLLATE"] s with
  | error e => simp only [h1] at h; cases h
  | ok tk =>
  simp only [h1] at h
  cases h2 : advanceE [.pair .IDENTIFIER "BINARY", .pair .IDENTIFIER "NOCASE",
      .pair .IDENTIFIER "RTRIM"] s with
  | error e => simp only [h2] at h; cases h
  | ok p =>
  obtain ⟨t1, s1⟩ := p
  simp only [h2] at h
  split at h
  · cases h; exact ⟨_, rfl⟩
  · split at h
    · cases h; exact ⟨_, rfl⟩
    · split at h
      · cases h; exact ⟨_, rfl⟩
      · cases h

/-- Every foreign-key constraint attached by the column matcher has an empty
`columns` list: the only foreign-key entry `match_column` can produce comes
from `match_foreign_key_clause(columns=[])` (line 151). -/
theorem matchColumn_fk_columns {fuel : Nat} {s : List Token} {col : Column}
    {s' : List Token} (h : matchColumn fuel s = .ok (col, s')) :
    ∀ fk, ColumnConstraint.foreignKey fk ∈ col.constraints →
      fk.columns = [] := by
  intro fk hmem
  unfold matchColumn at h
  cases h1 : checkE [.kind .IDENTIFIER] s with
  | error e => simp only [h1] at h; cases h
  | ok name_token =>
  simp only [h1] at h
  cases h2 : advanceE [.kind .IDENTIFIER] s with
  | error e => simp only [h2] at h; cases h
  | ok p =>
  obtain ⟨type_token, s1⟩ := p
  simp only [h2, advanceT] at h
  cases h3 : columnConstraintStep fuel (currentT s1.tail) s1.tail with
  | error e => simp only [h3] at h; cases h
  | ok p2 =>
  obtain ⟨constraints, s2⟩ := p2
  simp only [h3] at h
  cases h
  -- the membership hypothesis now constrains the dispatch's result list
  unfold columnConstraintStep at h3
  split at h3
  · cases h4 : matchPrimaryKeyConstraint s1.tail with
    | error e => simp [h4, Except.map] at h3
    | ok p3 =>
      obtain ⟨c3, s3⟩ := p3
      cases matchPrimaryKeyConstraint_ok h4
      simp [h4, Except.map] at h3
      obtain ⟨hc, -⟩ := h3
      rw [← hc] at hmem
      simp at hmem
  · split at h3
    · cases h4 : matchNotNullConstraint s1.tail with
      | error e => simp [h4, Except.map] at h3
      | ok p3 =>
        obtain ⟨c3, s3⟩ := p3
        cases matchNotNullConstraint_ok h4
        simp [h4, Except.map] at h3
        obtain ⟨hc, -⟩ := h3
        rw [← hc] at hmem
        simp at hmem
    · split at h3
      · cases h4 : matchCheckConstraint fuel s1.tail with
        | error e => simp [h4, Except.map] at h3
        | ok p3 =>
          obtain ⟨c3, s3⟩ := p3
          obtain ⟨e3, he3⟩ := matchCheckConstraint_ok h4
          cases he3
          simp [h4, Except.map] at h3
          obtain ⟨hc, -⟩ := h3
          rw [← hc] at hmem
          simp at hmem
      · split at h3
        · cases h4 : matchCollateConstraint s1.tail with
          | error e => simp [h4, Except.map] at h3
          | ok p3 =>
            obtain ⟨c3, s3⟩ := p3
            obtain ⟨q3, hq3⟩ := matchCollateConstraint_ok h4
            cases hq3
            simp [h4, Except.map] at h3
            obtain ⟨hc, -⟩ := h3
            rw [← hc] at hmem
            simp at hmem
        · split at h3
          · cases h4 : matchForeignKeyClause fuel [] s1.tail with
            | error e => simp [h4, Except.map] at h3
            | ok p3 =>
              obtain ⟨fk0, s3⟩ := p3
              simp [h4, Except.map] at h3
              obtain ⟨hc, -⟩ := h3
              rw [← hc] at hmem
              simp at hmem
              cases hmem
              exact matchForeignKeyClause_columns h4
          · cases h3
            simp at hmem

/-- C3 (amended): a foreign-key constraint reached via an inline
column-level `REFERENCES` clause always has `columns = []`; one reached via a
table-level `FOREIGN KEY (...)` clause has `columns` equal to the identifier
list written between its parentheses — which may be empty, since
`match_identifier_list` happily returns an empty list (`FOREIGN KEY ()` is
accepted). -/
theorem fk_columns_inline_and_table_level :
    (∀ (fuel : Nat) (s : List Token) (col : Column) (s' : List Token),
      matchColumn fuel s = .ok (col, s') →
      ∀ fk, ColumnConstraint.foreignKey fk ∈ col.constraints →
        fk.columns = []) ∧
    (∀ (fuel : Nat) (cols : List String) (s : List Token)
        (fk : ForeignKeyConstraint) (s' : List Token),
      matchForeignKeyClause fuel cols s = .ok (fk, s') → fk.columns = cols) ∧
    (∀ (fuel : Nat) (s : List Token) (fk : ForeignKeyConstraint)
        (s' : List Token),
      matchForeignKeyConstraint fuel s = .ok (fk, s') →
        fk.columns = (matchIdentifierList s.tail.tail.tail).1) := by
  refine ⟨fun fuel s col s' h => matchColumn_fk_columns h,
    fun fuel cols s fk s' h => matchForeignKeyClause_columns h,
    fun fuel s fk s' h => ?_⟩
  unfold matchForeignKeyConstraint at h
  cases h1 : checkE [.word "FOREIGN"] s with
  | error e => simp only [h1] at h; cases h
  | ok tk =>
  simp only [h1] at h
  cases h2 : advanceE [.word "KEY"] s with
  | error e => simp only [h2] at h; cases h
  | ok p =>
  obtain ⟨t1, s1⟩ := p
  simp only [h2] at h
  cases h3 : advanceE [.kind .LEFT_PARENTHESIS] s1 with
  | error e => simp only [h3] at h; cases h
  | ok p2 =>
  obtain ⟨t2, s2⟩ := p2
  simp only [h3, advanceT] at h
  cases h4 : checkE [.kind .RIGHT_PARENTHESIS]
      (matchIdentifierList s2.tail).2 with
  | error e => simp only [h4] at h; cases h
  | ok tk2 =>
  simp only [h4] at h
  obtain ⟨-, hs1, -⟩ := advanceE_ok h2
  obtain ⟨-, hs2, -⟩ := advanceE_ok h3
  subst hs1
  subst hs2
  exact matchForeignKeyClause_columns h

/-- C3 witness: the inline/table-level columns theorem at a concrete
table-level `FOREIGN KEY () REFERENCES u` fragment. -/
theorem fk_columns_inline_and_table_level_witness :
    (⟨[], "u", [], none, none, none, none, none⟩ :
        ForeignKeyConstraint).columns =
      (matchIdentifierList
        [rpar, kw "REFERENCES", ident "u"]).1 :=
  fk_columns_inline_and_table_level.2.2 10
    [kw "FOREIGN", kw "KEY", lpar, rpar, kw "REFERENCES", ident "u"]
    ⟨[], "u", [], none, none, none, none, none⟩ [] (by rfl)

/-- C5: inside the element list of a create statement, once the accumulated
constraints list is non-empty, an element parsing as a column raises the
syntax error of line 96: the element loop never returns normally on such
input. -/
theorem column_after_constraint_syntax_error
    (fuel : Nat) (columns : List Column)
    (constraints : List (Option ForeignKeyConstraint)) (s : List Token)
    (c : Column) (s2 : List Token)
    (h1 : constraints ≠ [])
    (h2 : (currentT s.tail).type ≠ .RIGHT_PARENTHESIS)
    (h3 : matchColumnOrConstraint fuel s.tail = .ok (some (.column c), s2)) :
    createElements (fuel + 1) columns constraints s = .error .syntaxError := by
  simp only [createElements, advanceT]
  rw [if_neg h2, h3]
  simp [elementStep, List.isEmpty_iff, h1]

/-- C5 witness: the rejection theorem at a concrete element list that has
already seen a `FOREIGN KEY (a) REFERENCES u` constraint and now meets the
column `b INTEGER`. -/
theorem column_after_constraint_syntax_error_witness :
    createElements 10 []
      [some ⟨["a"], "u", [], none, none, none, none, none⟩]
      [commaTok, ident "b", ident "INTEGER", rpar] = .error .syntaxError :=
  column_after_constraint_syntax_error 9 []
    [some ⟨["a"], "u", [], none, none, none, none, none⟩]
    [commaTok, ident "b", ident "INTEGER", rpar]
    ⟨"b", "INTEGER", []⟩ [rpar] (by decide) (by decide) (by rfl)

/-- C6: parsing the lone keyword `CREATE`, and the lone keyword `SELECT`,
each fail with the user-facing syntax error (`SQLiteParserError`), not the
internal error nor any other outcome: the first `advance(expecting=...)` of
the create matcher, and `match_prefix` meeting the end of input, both raise
plain syntax errors. -/
theorem lone_keyword_syntax_error :
    parse [kw "CREATE"] = .error .syntaxError ∧
    parse [kw "SELECT"] = .error .syntaxError := by
  constructor <;> rfl

/-- C2 counterexample: the claim says `match_column_or_constraint` either
returns a column, returns a constraint, or raises a syntax error, and that no
parse result contains a null element.  On `CREATE TABLE t (,)` the dispatch
sees a comma, which is neither the keyword `FOREIGN` nor an identifier, falls
through returning no value, and the enclosing loop appends that `None` to the
constraints list; parsing then succeeds with a null constraints entry. -/
theorem dispatch_none_reaches_result :
    parse [kw "CREATE", kw "TABLE", ident "t", lpar, commaTok, rpar] =
      .ok [.create (.plain "t") [] [none] false false false] := by
  rfl

/-- C2 (amended): whenever the current token is neither the keyword `FOREIGN`
nor an identifier, `match_column_or_constraint` returns no value (Python
`None`) and leaves the stream unchanged — it raises no error itself; the
enclosing element loop appends the missing value to the constraints list. -/
theorem dispatch_returns_none (fuel : Nat) (s : List Token)
    (h1 : ¬((currentT s).type = .KEYWORD ∧ (currentT s).value = "FOREIGN"))
    (h2 : (currentT s).type ≠ .IDENTIFIER) :
    matchColumnOrConstraint fuel s = .ok (none, s) := by
  unfold matchColumnOrConstraint
  rw [if_neg h1, if_neg h2]

/-- C2 witness: the amended dispatch behaviour at a concrete comma token. -/
theorem dispatch_returns_none_witness :
    matchColumnOrConstraint 5 [commaTok] = .ok (none, [commaTok]) :=
  dispatch_returns_none 5 [commaTok] (by decide) (by decide)

/-- C3 counterexample: the claim says a table-level `FOREIGN KEY (...)`
clause always yields a non-empty `columns` list.  `CREATE TABLE t
(FOREIGN KEY () REFERENCES u)` parses successfully and its table-level
foreign-key constraint has `columns = []`. -/
theorem table_level_fk_empty_columns :
    parse [kw "CREATE", kw "TABLE", ident "t", lpar, kw "FOREIGN", kw "KEY",
        lpar, rpar, kw "REFERENCES", ident "u", rpar] =
      .ok [.create (.plain "t") []
        [some ⟨[], "u", [], none, none, none, none, none⟩] false false false] := by
  rfl

/-- C4: precedence and left-associativity over integer literals and
`+ - * /`: `1 + 2 * 3` groups as `Infix(+, 1, Infix(*, 2, 3))`, `1 - 2 - 3`
groups as `Infix(-, Infix(-, 1, 2), 3)`, and in general for any two of the
four operators a higher-tier second operator binds tighter (right grouping)
while an equal- or lower-tier second operator associates left. -/
theorem expression_precedence_grouping :
    (∀ (o1 o2 : ArithOp) (s1 s2 s3 : String),
      matchExpression 32 [intTok s1, arithTok o1, intTok s2, arithTok o2,
          intTok s3] =
        .ok ((if tierOf o1 < tierOf o2 then
            .infixE (arithTok o1).value (.integerLit (intVal s1))
              (.infixE (arithTok o2).value (.integerLit (intVal s2))
                (.integerLit (intVal s3)))
          else
            .infixE (arithTok o2).value
              (.infixE (arithTok o1).value (.integerLit (intVal s1))
                (.integerLit (intVal s2)))
              (.integerLit (intVal s3))), [])) ∧
    matchExpression 32 [intTok "1", opTok "+", intTok "2", opTok "*",
        intTok "3"] =
      .ok (.infixE "+" (.integerLit 1)
        (.infixE "*" (.integerLit 2) (.integerLit 3)), []) ∧
    matchExpression 32 [intTok "1", opTok "-", intTok "2", opTok "-",
        intTok "3"] =
      .ok (.infixE "-" (.infixE "-" (.integerLit 1) (.integerLit 2))
        (.integerLit 3), []) := by
  refine ⟨fun o1 o2 s1 s2 s3 => ?_, by rfl, by rfl⟩
  cases o1 <;> cases o2 <;> rfl

/-- Entering the qualifier loop at the end of the clause breaks at once. -/
theorem clauseLoop_end (fuel : Nat) (f : FKFields) :
    clauseLoop (fuel + 1) f (currentT ([] : List Token)) [] = .ok (f, []) := rfl

/-- One trip around the qualifier loop: consuming one rendered qualifier
applies exactly that qualifier's field update. -/
theorem clauseLoop_step (q : Qualifier) (fuel : Nat) (f : FKFields)
    (rest : List Token) :
    clauseLoop (fuel + 1) f (currentT (renderQ q ++ rest)) (renderQ q ++ rest) =
      clauseLoop fuel (applyQ f q) (currentT rest) rest := by
  cases q with
  | qOnDelete a => cases a <;> rfl
  | qOnUpdate a => cases a <;> rfl
  | qMatch m => cases m <;> rfl

/-- Running the qualifier loop over a rendered qualifier sequence folds the
qualifiers, in textual order, into the fields. -/
theorem clauseLoop_renders (qs : List Qualifier) (fuel : Nat) (f : FKFields)
    (rest : List Token) :
    clauseLoop (qs.length + (fuel + 1)) f (currentT (renderQs qs ++ rest))
        (renderQs qs ++ rest) =
      clauseLoop (fuel + 1) (qs.foldl applyQ f) (currentT rest) rest := by
  induction qs generalizing f with
  | nil => simp [renderQs]
  | cons q qs ih =>
    have hlen : (q :: qs).length + (fuel + 1) = (qs.length + (fuel + 1)) + 1 := by
      simp [List.length_cons]
      omega
    have happ : renderQs (q :: qs) ++ rest = renderQ q ++ (renderQs qs ++ rest) := by
      simp [renderQs, List.append_assoc]
    rw [hlen, happ, clauseLoop_step q (qs.length + (fuel + 1)) f
      (renderQs qs ++ rest)]
    exact ih (applyQ f q)

/-- The first token of a rendered qualifier sequence is never a left
parenthesis (it is a keyword, or end of input for the empty sequence). -/
theorem renderQs_head_not_lparen (qs : List Qualifier) :
    (currentT (renderQs qs)).type ≠ .LEFT_PARENTHESIS := by
  cases qs with
  | nil => simp [renderQs, currentT, eofToken]
  | cons q qs => cases q <;>
      simp [renderQs, renderQ, currentT, kw, List.cons_append]

/-- Full run of the foreign-key clause matcher over `REFERENCES tbl`
followed by a rendered qualifier sequence: it succeeds, consumes everything,
and its qualifier fields are the left fold of the qualifiers. -/
theorem matchForeignKeyClause_mkClause (qs : List Qualifier)
    (cols : List String) :
    matchForeignKeyClause (qs.length + 1) cols (mkClause qs) =
      .ok (⟨cols, "tbl", [], (qs.foldl applyQ initFields).on_delete,
        (qs.foldl applyQ initFields).on_update,
        (qs.foldl applyQ initFields).matchKind,
        (qs.foldl applyQ initFields).deferrable,
        (qs.foldl applyQ initFields).initially_deferred⟩, []) := by
  have h1 : checkE [.word "REFERENCES"] (mkClause qs) = .ok (kw "REFERENCES") :=
    rfl
  have h2 : advanceE [.kind .IDENTIFIER] (mkClause qs) =
      .ok (ident "tbl", ident "tbl" :: renderQs qs) := rfl
  have h3 : foreignColumnsStep (currentT (renderQs qs)) (renderQs qs) =
      .ok (([], currentT (renderQs qs)), renderQs qs) := by
    unfold foreignColumnsStep
    rw [if_neg (renderQs_head_not_lparen qs)]
  have h4 : clauseLoop (qs.length + 1) initFields (currentT (renderQs qs))
      (renderQs qs) = .ok (qs.foldl applyQ initFields, []) := by
    have := clauseLoop_renders qs 0 initFields []
    simpa using this
  unfold matchForeignKeyClause
  simp only [h1, h2, advanceT, List.tail_cons, h3, h4]
  rfl

/-- The five fields produced for `mkClause qs` are exactly the fold of the
qualifiers over the initial all-`None` fields. -/
theorem clauseFields_eq (cols : List String) (qs : List Qualifier) :
    clauseFields cols qs = some (qs.foldl applyQ initFields) := by
  unfold clauseFields
  rw [matchForeignKeyClause_mkClause]

/-- Qualifiers of different categories update disjoint fields, so their
updates commute. -/
theorem applyQ_comm {a b : Qualifier} (h : category a ≠ category b)
    (g : FKFields) : applyQ (applyQ g a) b = applyQ (applyQ g b) a := by
  cases a <;> cases b <;> first | rfl | exact absurd rfl h

/-- A qualifier whose category differs from everything in a list moves
through the fold of that list. -/
theorem foldl_applyQ_out (q : Qualifier) (qs : List Qualifier) (f : FKFields)
    (h : ∀ x ∈ qs, category q ≠ category x) :
    qs.foldl applyQ (applyQ f q) = applyQ (qs.foldl applyQ f) q := by
  induction qs generalizing f with
  | nil => rfl
  | cons x xs ih =>
    simp only [List.foldl_cons]
    rw [applyQ_comm (h x (by simp))]
    exact ih (applyQ f x) (fun y hy => h y (by simp [hy]))

/-- With pairwise-distinct categories the fold is reversal-invariant. -/
theorem foldl_applyQ_reverse (qs : List Qualifier) (f : FKFields)
    (h : qs.Pairwise (fun a b => category a ≠ category b)) :
    qs.reverse.foldl applyQ f = qs.foldl applyQ f := by
  induction qs generalizing f with
  | nil => rfl
  | cons q xs ih =>
    obtain ⟨hq, hxs⟩ := List.pairwise_cons.mp h
    simp only [List.reverse_cons, List.foldl_append, List.foldl_cons,
      List.foldl_nil]
    rw [ih f hxs, ← foldl_applyQ_out q xs f hq]

/-- C1: two foreign-key clauses identical except that their non-deferrability
qualifiers (`ON DELETE`/`ON UPDATE` actions and `MATCH` kind, each category
appearing at most once, as the qualifier loop's contract states) occur in
reversed textual order parse to identical `on_delete`, `on_update`, `match`,
`deferrable` and `initially_deferred` fields, and both parses succeed. -/
theorem fk_qualifier_order_independent (cols : List String)
    (qs : List Qualifier) (h : (qs.map category).Nodup) :
    clauseFields cols qs = clauseFields cols qs.reverse ∧
      (clauseFields cols qs).isSome := by
  have hp : qs.Pairwise (fun a b => category a ≠ category b) :=
    List.pairwise_map.mp h
  constructor
  · rw [clauseFields_eq, clauseFields_eq, foldl_applyQ_reverse qs initFields hp]
  · rw [clauseFields_eq]
    rfl

/-- C1 witness: `MATCH FULL ON DELETE CASCADE` versus
`ON DELETE CASCADE MATCH FULL`. -/
theorem fk_qualifier_order_independent_witness :
    clauseFields ["a"] [.qMatch .FULL, .qOnDelete .CASCADE] =
        clauseFields ["a"] ([.qMatch .FULL, .qOnDelete .CASCADE].reverse) ∧
      (clauseFields ["a"] [.qMatch .FULL, .qOnDelete .CASCADE]).isSome :=
  fk_qualifier_order_independent ["a"] [.qMatch .FULL, .qOnDelete .CASCADE]
    (by decide)

/-- If a list has a last element, consing preserves it. -/
theorem getLast?_cons_some {α : Type} {l : List α} {x : α}
    (h : l.getLast? = some x) (a : α) : (a :: l).getLast? = some x := by
  cases l with
  | nil => cases h
  | cons b bs => rw [List.getLast?_cons_cons]; exact h

/-- Reading a category's field after one update. -/
theorem fieldGet_applyQ (c : QCat) (f : FKFields) (q : Qualifier) :
    fieldGet c (applyQ f q) =
      if category q = c then some q else fieldGet c f := by
  cases q <;> cases c <;> simp [applyQ, fieldGet, category]

/-- Reading a category's field after folding a qualifier sequence: the last
same-category qualifier wins, and with none present the field is whatever it
started as. -/
theorem fieldGet_foldl (qs : List Qualifier) (c : QCat) (f : FKFields) :
    fieldGet c (qs.foldl applyQ f) =
      ((qs.filter (fun q => category q = c)).getLast?).elim
        (fieldGet c f) some := by
  induction qs generalizing f with
  | nil => rfl
  | cons q xs ih =>
    simp only [List.foldl_cons]
    rw [ih (applyQ f q)]
    by_cases hqc : category q = c
    · rw [List.filter_cons_of_pos (by simp [hqc])]
      cases hl : (xs.filter (fun q => category q = c)).getLast? with
      | some x => rw [getLast?_cons_some hl q]; simp [hl]
      | none =>
        have : xs.filter (fun q => category q = c) = [] :=
          List.getLast?_eq_none_iff.mp hl
        rw [this]
        simp [hl, fieldGet_applyQ, hqc]
    · rw [List.filter_cons_of_neg (by simp [hqc])]
      cases hl : (xs.filter (fun q => category q = c)).getLast? with
      | some x => simp [hl]
      | none => simp [hl, fieldGet_applyQ, hqc]

/-- C9: duplicate qualifiers of one category are accepted without error and
the textually last occurrence wins: parsing a clause whose qualifier sequence
is `qs` succeeds, and for any category, the resulting field holds the last
qualifier of that category in `qs`. -/
theorem fk_duplicate_qualifier_last_wins (cols : List String)
    (qs : List Qualifier) (c : QCat) (q : Qualifier)
    (h : (qs.filter (fun x => category x = c)).getLast? = some q) :
    ∃ f, clauseFields cols qs = some f ∧ fieldGet c f = some q := by
  refine ⟨qs.foldl applyQ initFields, clauseFields_eq cols qs, ?_⟩
  rw [fieldGet_foldl, h]
  rfl

/-- C9 witness: `ON DELETE CASCADE ON DELETE RESTRICT` parses with
`on_delete = RESTRICT`. -/
theorem fk_duplicate_qualifier_last_wins_witness :
    ∃ f, clauseFields [] [.qOnDelete .CASCADE, .qOnDelete .RESTRICT] = some f ∧
      fieldGet .cDelete f = some (.qOnDelete .RESTRICT) :=
  fk_duplicate_qualifier_last_wins [] [.qOnDelete .CASCADE, .qOnDelete .RESTRICT]
    .cDelete (.qOnDelete .RESTRICT) (by rfl)

/-- A failing `advance(expecting=...)` always raises the syntax error, never
the internal error. -/
theorem advanceE_error {es : List Expecting} {s : List Token} {e : PError}
    (h : advanceE es s = .error e) : e = .syntaxError := by
  simp only [advanceE, advanceT] at h
  split at h
  · cases h
  · cases h; rfl

/-- A failing `check(expecting)` always raises the syntax error. -/
theorem checkE_error {es : List Expecting} {s : List Token} {e : PError}
    (h : checkE es s = .error e) : e = .syntaxError := by
  simp only [checkE] at h
  split at h
  · cases h
  · cases h; rfl

/-- The `ON DELETE|UPDATE` action decoder never reaches its impossible-error
branch when the dispatch keyword was validated to `SET`, `CASCADE`,
`RESTRICT` or `NO`. -/
theorem actionStep_no_imp {t2 : Token} {s : List Token}
    (hv : t2.value = "SET" ∨ t2.value = "CASCADE" ∨ t2.value = "RESTRICT" ∨
      t2.value = "NO") :
    actionStep t2 s ≠ .error .impossibleError := by
  unfold actionStep
  rcases hv with h | h | h | h <;> simp only [h]
  · cases ha : advanceE [.word "NULL", .word "DEFAULT"] s with
    | error e => cases advanceE_error ha; simp [ha]
    | ok p => obtain ⟨t3, s'⟩ := p; simp [ha]
  · simp
  · simp
  · cases ha : advanceE [.word "ACTION"] s with
    | error e => cases advanceE_error ha; simp [ha]
    | ok p => obtain ⟨t3, s'⟩ := p; simp [ha]

/-- The deferrability polarity step only raises syntax errors. -/
theorem deferrablePolarity_no_imp (token : Token) (f : FKFields)
    (s : List Token) :
    deferrablePolarity token f s ≠ .error .impossibleError := by
  unfold deferrablePolarity
  split
  · cases ha : advanceE [.word "DEFERRABLE"] s with
    | error e => cases advanceE_error ha; simp [ha]
    | ok p => obtain ⟨t3, s'⟩ := p; simp [ha]
  · simp

/-- The whole `[NOT] DEFERRABLE ...` arm only raises syntax errors. -/
theorem deferrableStep_no_imp (token : Token) (f : FKFields)
    (s : List Token) :
    deferrableStep token f s ≠ .error .impossibleError := by
  unfold deferrableStep
  cases hp : deferrablePolarity token f s with
  | error e =>
    simp only [hp]
    intro hc
    cases hc
    exact deferrablePolarity_no_imp token f s hp
  | ok p =>
    obtain ⟨f1, s1⟩ := p
    simp only [hp, advanceT]
    split
    · simp
    · cases ha : advanceE [.word "DEFERRED", .word "IMMEDIATE"] s1.tail with
      | error e => cases advanceE_error ha; simp [ha]
      | ok p2 => obtain ⟨t3, s2⟩ := p2; simp [ha]

/-- The qualifier loop of the foreign-key clause never raises the internal
error: its `ON` dispatch is pre-validated. -/
theorem clauseLoop_no_imp (fuel : Nat) (f : FKFields) (token : Token)
    (s : List Token) : clauseLoop fuel f token s ≠ .error .impossibleError := by
  induction fuel generalizing f token s with
  | zero => simp [clauseLoop]
  | succ fuel ih =>
    unfold clauseLoop
    split
    · cases h1 : advanceE [.word "DELETE", .word "UPDATE"] s with
      | error e => cases advanceE_error h1; simp [h1]
      | ok p =>
        obtain ⟨du, s1⟩ := p
        simp only [h1]
        cases h2 : advanceE [.word "SET", .word "CASCADE", .word "RESTRICT",
            .word "NO"] s1 with
        | error e => cases advanceE_error h2; simp [h2]
        | ok p2 =>
          obtain ⟨t2, s2⟩ := p2
          simp only [h2]
          have hv : t2.value = "SET" ∨ t2.value = "CASCADE" ∨
              t2.value = "RESTRICT" ∨ t2.value = "NO" := by
            obtain ⟨-, -, hany⟩ := advanceE_ok h2
            simp [matchesE] at hany
            tauto
          cases h3 : actionStep t2 s2 with
          | error e =>
            simp only [h3]
            intro hc
            cases hc
            exact actionStep_no_imp hv h3
          | ok p3 =>
            obtain ⟨value, s3⟩ := p3
            simp only [h3, advanceT]
            exact ih _ _ _
    · split
      · cases h1 : advanceE [.word "SIMPLE", .word "FULL", .word "PARTIAL"]
            s with
        | error e => cases advanceE_error h1; simp [h1]
        | ok p =>
          obtain ⟨mt, s1⟩ := p
          simp only [h1, advanceT]
          exact ih _ _ _
      · split
        · exact deferrableStep_no_imp token f s
        · simp

/-- The collate matcher never raises the internal error: the collating
sequence identifier is pre-validated to `BINARY`, `NOCASE` or `RTRIM`. -/
theorem matchCollateConstraint_no_imp (s : List Token) :
    matchCollateConstraint s ≠ .error .impossibleError := by
  unfold matchCollateConstraint
  cases h1 : checkE [.word "COLLATE"] s with
  | error e => cases checkE_error h1; simp [h1]
  | ok tk =>
  simp only [h1]
  cases h2 : advanceE [.pair .IDENTIFIER "BINARY", .pair .IDENTIFIER "NOCASE",
      .pair .IDENTIFIER "RTRIM"] s with
  | error e => cases advanceE_error h2; simp [h2]
  | ok p =>
  obtain ⟨t1, s1⟩ := p
  simp only [h2]
  have hv : t1.value = "BINARY" ∨ t1.value = "NOCASE" ∨ t1.value = "RTRIM" := by
    obtain ⟨-, -, hany⟩ := advanceE_ok h2
    simp [matchesE] at hany
    tauto
  rcases hv with h | h | h <;> simp [h]

/-- The foreign-column-list step only raises syntax errors. -/
theorem foreignColumnsStep_no_imp (token : Token) (s : List Token) :
    foreignColumnsStep token s ≠ .error .impossibleError := by
  simp only [foreignColumnsStep]
  split
  · cases h1 : checkE [.kind .RIGHT_PARENTHESIS]
        (matchIdentifierList s.tail).2 with
    | error e => cases checkE_error h1; simp [h1, advanceT]
    | ok tk => simp [h1, advanceT]
  · simp

/-- The foreign-key clause matcher never raises the internal error. -/
theorem matchForeignKeyClause_no_imp (fuel : Nat) (cols : List String)
    (s : List Token) :
    matchForeignKeyClause fuel cols s ≠ .error .impossibleError := by
  unfold matchForeignKeyClause
  cases h1 : checkE [.word "REFERENCES"] s with
  | error e => cases checkE_error h1; simp [h1]
  | ok tk =>
  simp only [h1]
  cases h2 : advanceE [.kind .IDENTIFIER] s with
  | error e => cases advanceE_error h2; simp [h2]
  | ok p =>
  obtain ⟨ftTok, s1⟩ := p
  simp only [h2, advanceT]
  cases h3 : foreignColumnsStep (currentT s1.tail) s1.tail with
  | error e =>
    simp only [h3]
    intro hc
    cases hc
    exact foreignColumnsStep_no_imp _ _ h3
  | ok p2 =>
  obtain ⟨⟨fcols, tok2⟩, s2⟩ := p2
  simp only [h3]
  cases h4 : clauseLoop fuel initFields tok2 s2 with
  | error e =>
    simp only [h4]
    intro hc
    cases hc
    exact clauseLoop_no_imp fuel initFields tok2 s2 h4
  | ok p3 => obtain ⟨f1, s3⟩ := p3; simp [h4]

/-- The table-level foreign-key constraint matcher never raises the internal
error. -/
theorem matchForeignKeyConstraint_no_imp (fuel : Nat) (s : List Token) :
    matchForeignKeyConstraint fuel s ≠ .error .impossibleError := by
  unfold matchForeignKeyConstraint
  cases h1 : checkE [.word "FOREIGN"] s with
  | error e => cases checkE_error h1; simp [h1]
  | ok tk =>
  simp only [h1]
  cases h2 : advanceE [.word "KEY"] s with
  | error e => cases advanceE_error h2; simp [h2]
  | ok p =>
  obtain ⟨t1, s1⟩ := p
  simp only [h2]
  cases h3 : advanceE [.kind .LEFT_PARENTHESIS] s1 with
  | error e => cases advanceE_error h3; simp [h3]
  | ok p2 =>
  obtain ⟨t2, s2⟩ := p2
  simp only [h3, advanceT]
  cases h4 : checkE [.kind .RIGHT_PARENTHESIS]
      (matchIdentifierList s2.tail).2 with
  | error e => cases checkE_error h4; simp [h4]
  | ok tk2 =>
  simp only [h4]
  exact matchForeignKeyClause_no_imp _ _ _

/-- The primary-key matcher only raises syntax errors. -/
theorem matchPrimaryKeyConstraint_no_imp (s : List Token) :
    matchPrimaryKeyConstraint s ≠ .error .impossibleError := by
  unfold matchPrimaryKeyConstraint
  cases h1 : checkE [.word "PRIMARY"] s with
  | error e => cases checkE_error h1; simp [h1]
  | ok tk =>
  simp only [h1]
  cases h2 : advanceE [.word "KEY"] s with
  | error e => cases advanceE_error h2; simp [h2]
  | ok p => obtain ⟨t1, s1⟩ := p; simp [h2]

/-- The not-null matcher only raises syntax errors. -/
theorem matchNotNullConstraint_no_imp (s : List Token) :
    matchNotNullConstraint s ≠ .error .impossibleError := by
  unfold matchNotNullConstraint
  cases h1 : checkE [.word "NOT"] s with
  | error e => cases checkE_error h1; simp [h1]
  | ok tk =>
  simp only [h1]
  cases h2 : advanceE [.word "NULL"] s with
  | error e => cases advanceE_error h2; simp [h2]
  | ok p => obtain ⟨t1, s1⟩ := p; simp [h2]

/-- The expression parser family never raises the internal error (it contains
no impossible-error branch). -/
theorem exprFamily_no_imp (fuel : Nat) :
    (∀ s, matchPrefixE fuel s ≠ .error .impossibleError) ∧
    (∀ prec s, matchExpressionAux fuel prec s ≠ .error .impossibleError) ∧
    (∀ prec left s, exprLoop fuel prec left s ≠ .error .impossibleError) ∧
    (∀ left prec s, matchInfixE fuel left prec s ≠ .error .impossibleError) := by
  induction fuel with
  | zero => refine ⟨?_, ?_, ?_, ?_⟩ <;> intros <;>
      simp [matchPrefixE, matchExpressionAux, exprLoop, matchInfixE]
  | succ fuel ih =>
    obtain ⟨ihP, ihE, ihL, ihI⟩ := ih
    have hP : ∀ s, matchPrefixE (fuel + 1) s ≠ .error .impossibleError := by
      intro s
      simp only [matchPrefixE]
      split
      · simp
      · cases h1 : matchExpressionAux fuel (-1) ((advanceT s).2) with
        | error e =>
          simp only [h1]
          intro hc
          cases hc
          exact ihE _ _ h1
        | ok p =>
          obtain ⟨e1, s1⟩ := p
          simp only [h1]
          cases h2 : advanceE [.kind .RIGHT_PARENTHESIS] s1 with
          | error e => cases advanceE_error h2; simp [h2]
          | ok p2 => obtain ⟨t2, s2⟩ := p2; simp [h2]
      · simp
      · simp
      · simp
    have hI : ∀ left prec s,
        matchInfixE (fuel + 1) left prec s ≠ .error .impossibleError := by
      intro left prec s
      unfold matchInfixE
      cases h1 : matchExpressionAux fuel prec ((advanceT s).2) with
      | error e =>
        simp only [h1]
        intro hc
        cases hc
        exact ihE _ _ h1
      | ok p => obtain ⟨r1, s1⟩ := p; simp [h1]
    have hL : ∀ prec left s,
        exprLoop (fuel + 1) prec left s ≠ .error .impossibleError := by
      intro prec left s
      simp only [exprLoop]
      split
      · simp
      · split
        · simp
        · cases h1 : matchInfixE fuel left _ s with
          | error e =>
            simp only [h1]
            intro hc
            cases hc
            exact ihI _ _ _ h1
          | ok p =>
            obtain ⟨l1, s1⟩ := p
            simp only [h1]
            exact ihL _ _ _
    have hE : ∀ prec s,
        matchExpressionAux (fuel + 1) prec s ≠ .error .impossibleError := by
      intro prec s
      unfold matchExpressionAux
      cases h1 : matchPrefixE fuel s with
      | error e =>
        simp only [h1]
        intro hc
        cases hc
        exact ihP _ h1
      | ok p =>
        obtain ⟨l1, s1⟩ := p
        simp only [h1]
        exact ihL _ _ _
    exact ⟨hP, hE, hL, hI⟩

/-- The check-constraint matcher never raises the internal error. -/
theorem matchCheckConstraint_no_imp (fuel : Nat) (s : List Token) :
    matchCheckConstraint fuel s ≠ .error .impossibleError := by
  unfold matchCheckConstraint
  cases h1 : checkE [.word "CHECK"] s with
  | error e => cases checkE_error h1; simp [h1]
  | ok tk =>
  simp only [h1]
  cases h2 : advanceE [.kind .LEFT_PARENTHESIS] s with
  | error e => cases advanceE_error h2; simp [h2]
  | ok p =>
  obtain ⟨t1, s1⟩ := p
  simp only [h2]
  cases h3 : matchExpression fuel ((advanceT s1).2) with
  | error e =>
    simp only [h3]
    intro hc
    cases hc
    exact (exprFamily_no_imp fuel).2.1 _ _ h3
  | ok p2 =>
  obtain ⟨e1, s2⟩ := p2
  simp only [h3]
  cases h4 : checkE [.kind .RIGHT_PARENTHESIS] s2 with
  | error e => cases checkE_error h4; simp [h4]
  | ok tk2 => simp [h4]

/-- The column-constraint dispatch never raises the internal error. -/
theorem columnConstraintStep_no_imp (fuel : Nat) (token : Token)
    (s : List Token) :
    columnConstraintStep fuel token s ≠ .error .impossibleError := by
  unfold columnConstraintStep
  split
  · cases h : matchPrimaryKeyConstraint s with
    | error e =>
      simp only [h, Except.map]
      intro hc
      cases hc
      exact matchPrimaryKeyConstraint_no_imp s h
    | ok p => obtain ⟨c, s1⟩ := p; simp [h, Except.map]
  · split
    · cases h : matchNotNullConstraint s with
      | error e =>
        simp only [h, Except.map]
        intro hc
        cases hc
        exact matchNotNullConstraint_no_imp s h
      | ok p => obtain ⟨c, s1⟩ := p; simp [h, Except.map]
    · split
      · cases h : matchCheckConstraint fuel s with
        | error e =>
          simp only [h, Except.map]
          intro hc
          cases hc
          exact matchCheckConstraint_no_imp fuel s h
        | ok p => obtain ⟨c, s1⟩ := p; simp [h, Except.map]
      · split
        · cases h : matchCollateConstraint s with
          | error e =>
            simp only [h, Except.map]
            intro hc
            cases hc
            exact matchCollateConstraint_no_imp s h
          | ok p => obtain ⟨c, s1⟩ := p; simp [h, Except.map]
        · split
          · cases h : matchForeignKeyClause fuel [] s with
            | error e =>
              simp only [h, Except.map]
              intro hc
              cases hc
              exact matchForeignKeyClause_no_imp fuel [] s h
            | ok p => obtain ⟨fk, s1⟩ := p; simp [h, Except.map]
          · simp

/-- The column matcher never raises the internal error. -/
theorem matchColumn_no_imp (fuel : Nat) (s : List Token) :
    matchColumn fuel s ≠ .error .impossibleError := by
  unfold matchColumn
  cases h1 : checkE [.kind .IDENTIFIER] s with
  | error e => cases checkE_error h1; simp [h1]
  | ok tk =>
  simp only [h1]
  cases h2 : advanceE [.kind .IDENTIFIER] s with
  | error e => cases advanceE_error h2; simp [h2]
  | ok p =>
  obtain ⟨t1, s1⟩ := p
  simp only [h2, advanceT]
  cases h3 : columnConstraintStep fuel (currentT s1.tail) s1.tail with
  | error e =>
    simp only [h3]
    intro hc
    cases hc
    exact columnConstraintStep_no_imp _ _ _ h3
  | ok p2 => obtain ⟨cs, s2⟩ := p2; simp [h3]

/-- The column-or-constraint dispatch never raises the internal error. -/
theorem matchColumnOrConstraint_no_imp (fuel : Nat) (s : List Token) :
    matchColumnOrConstraint fuel s ≠ .error .impossibleError := by
  simp only [matchColumnOrConstraint]
  split
  · cases h : matchForeignKeyConstraint fuel s with
    | error e =>
      simp only [h, Except.map]
      intro hc
      cases hc
      exact matchForeignKeyConstraint_no_imp fuel s h
    | ok p => obtain ⟨fk, s1⟩ := p; simp [h, Except.map]
  · split
    · cases h : matchColumn fuel s with
      | error e =>
        simp only [h, Except.map]
        intro hc
        cases hc
        exact matchColumn_no_imp fuel s h
      | ok p => obtain ⟨c, s1⟩ := p; simp [h, Except.map]
    · simp

/-- The element loop never raises the internal error. -/
theorem createElements_no_imp (fuel : Nat) (columns : List Column)
    (constraints : List (Option ForeignKeyConstraint)) (s : List Token) :
    createElements fuel columns constraints s ≠ .error .impossibleError := by
  induction fuel generalizing columns constraints s with
  | zero => simp [createElements]
  | succ fuel ih =>
    unfold createElements
    simp only [advanceT]
    split
    · simp
    · cases h1 : matchColumnOrConstraint fuel s.tail with
      | error e =>
        simp only [h1]
        intro hc
        cases hc
        exact matchColumnOrConstraint_no_imp fuel s.tail h1
      | ok p =>
        obtain ⟨cc, s1⟩ := p
        simp only [h1]
        cases h2 : elementStep cc columns constraints with
        | error e =>
          simp only [h2]
          unfold elementStep at h2
          intro hc
          cases hc
          split at h2
          · split at h2
            · cases h2
            · cases h2
          · cases h2
          · cases h2
        | ok p2 =>
          obtain ⟨cols2, cons2⟩ := p2
          simp only [h2]
          cases h3 : checkE [.kind .COMMA, .kind .RIGHT_PARENTHESIS] s1 with
          | error e => cases checkE_error h3; simp [h3]
          | ok tk =>
            simp only [h3]
            split
            · simp
            · exact ih _ _ _

/-- The temporary-prefix step only raises syntax errors. -/
theorem temporaryStep_no_imp (token : Token) (s : List Token) :
    temporaryStep token s ≠ .error .impossibleError := by
  unfold temporaryStep
  split
  · cases h : advanceE [.word "TABLE"] s with
    | error e => cases advanceE_error h; simp [h]
    | ok p => obtain ⟨t, s1⟩ := p; simp [h]
  · simp

/-- The if-not-exists step only raises syntax errors. -/
theorem ifNotExistsStep_no_imp (token : Token) (s : List Token) :
    ifNotExistsStep token s ≠ .error .impossibleError := by
  unfold ifNotExistsStep
  split
  · cases h1 : advanceE [.word "NOT"] s with
    | error e => cases advanceE_error h1; simp [h1]
    | ok p =>
      obtain ⟨t1, s1⟩ := p
      simp only [h1]
      cases h2 : advanceE [.word "EXISTS"] s1 with
      | error e => cases advanceE_error h2; simp [h2]
      | ok p2 =>
        obtain ⟨t2, s2⟩ := p2
        simp only [h2]
        cases h3 : advanceE [.kind .IDENTIFIER] s2 with
        | error e => cases advanceE_error h3; simp [h3]
        | ok p3 => obtain ⟨t3, s3⟩ := p3; simp [h3]
  · simp

/-- The table-name step only raises syntax errors. -/
theorem tableNameStep_no_imp (name_token token : Token) (s : List Token) :
    tableNameStep name_token token s ≠ .error .impossibleError := by
  unfold tableNameStep
  split
  · cases h1 : advanceE [.kind .IDENTIFIER] s with
    | error e => cases advanceE_error h1; simp [h1]
    | ok p =>
      obtain ⟨t1, s1⟩ := p
      simp only [h1]
      cases h2 : advanceE [.kind .LEFT_PARENTHESIS] s1 with
      | error e => cases advanceE_error h2; simp [h2]
      | ok p2 => obtain ⟨t2, s2⟩ := p2; simp [h2]
  · simp

/-- The without-rowid step only raises syntax errors. -/
theorem withoutRowidStep_no_imp (token : Token) (s : List Token) :
    withoutRowidStep token s ≠ .error .impossibleError := by
  unfold withoutRowidStep
  split
  · cases h : advanceE [.pair .IDENTIFIER "ROWID"] s with
    | error e => cases advanceE_error h; simp [h]
    | ok p => obtain ⟨t, s1⟩ := p; simp [h]
  · simp

/-- The create-statement matcher never raises the internal error. -/
theorem matchCreateStatement_no_imp (fuel : Nat) (s : List Token) :
    matchCreateStatement fuel s ≠ .error .impossibleError := by
  unfold matchCreateStatement
  cases h1 : advanceE [.word "TABLE", .word "TEMPORARY", .word "TEMP"] s with
  | error e => cases advanceE_error h1; simp [h1]
  | ok p =>
  obtain ⟨t1, s1⟩ := p
  simp only [h1]
  cases h2 : temporaryStep t1 s1 with
  | error e =>
    simp only [h2]
    intro hc
    cases hc
    exact temporaryStep_no_imp t1 s1 h2
  | ok p2 =>
  obtain ⟨temp, s2⟩ := p2
  simp only [h2]
  cases h3 : advanceE [.word "IF", .kind .IDENTIFIER] s2 with
  | error e => cases advanceE_error h3; simp [h3]
  | ok p3 =>
  obtain ⟨t3, s3⟩ := p3
  simp only [h3]
  cases h4 : ifNotExistsStep t3 s3 with
  | error e =>
    simp only [h4]
    intro hc
    cases hc
    exact ifNotExistsStep_no_imp t3 s3 h4
  | ok p4 =>
  obtain ⟨⟨ine, nameTok⟩, s4⟩ := p4
  simp only [h4]
  cases h5 : advanceE [.kind .DOT, .kind .LEFT_PARENTHESIS] s4 with
  | error e => cases advanceE_error h5; simp [h5]
  | ok p5 =>
  obtain ⟨t5, s5⟩ := p5
  simp only [h5]
  cases h6 : tableNameStep nameTok t5 s5 with
  | error e =>
    simp only [h6]
    intro hc
    cases hc
    exact tableNameStep_no_imp nameTok t5 s5 h6
  | ok p6 =>
  obtain ⟨nm, s6⟩ := p6
  simp only [h6]
  cases h7 : createElements fuel [] [] s6 with
  | error e =>
    simp only [h7]
    intro hc
    cases hc
    exact createElements_no_imp fuel [] [] s6 h7
  | ok p7 =>
  obtain ⟨⟨cols, cons⟩, s7⟩ := p7
  simp only [h7, advanceT]
  cases h8 : withoutRowidStep (currentT s7.tail) s7.tail with
  | error e =>
    simp only [h8]
    intro hc
    cases hc
    exact withoutRowidStep_no_imp _ _ h8
  | ok p8 => obtain ⟨wr, s8⟩ := p8; simp [h8]

/-- The select matcher never raises the internal error. -/
theorem matchSelectStatement_no_imp (fuel : Nat) (s : List Token) :
    matchSelectStatement fuel s ≠ .error .impossibleError := by
  unfold matchSelectStatement
  cases h : matchExpression fuel ((advanceT s).2) with
  | error e =>
    simp only [h]
    intro hc
    cases hc
    exact (exprFamily_no_imp fuel).2.1 _ _ h
  | ok p => obtain ⟨e1, s1⟩ := p; simp [h]

/-- The statement dispatcher never raises the internal error. -/
theorem matchStatement_no_imp (fuel : Nat) (s : List Token) :
    matchStatement fuel s ≠ .error .impossibleError := by
  simp only [matchStatement]
  split
  · split
    · exact matchCreateStatement_no_imp fuel s
    · split
      · exact matchSelectStatement_no_imp fuel s
      · simp
  · simp

/-- The statement loop never raises the internal error. -/
theorem parseLoop_no_imp (fuel : Nat) (acc : List Statement)
    (s : List Token) : parseLoop fuel acc s ≠ .error .impossibleError := by
  induction fuel generalizing acc s with
  | zero => simp [parseLoop]
  | succ fuel ih =>
    unfold parseLoop
    cases h1 : matchStatement fuel s with
    | error e =>
      simp only [h1]
      intro hc
      cases hc
      exact matchStatement_no_imp fuel s h1
    | ok p =>
      obtain ⟨st, s1⟩ := p
      simp only [h1]
      split
      · simp
      · cases h2 : advanceE [.kind .SEMICOLON] s1 with
        | error e => cases advanceE_error h2; simp [h2]
        | ok p2 =>
          obtain ⟨t2, s2⟩ := p2
          simp only [h2]
          split
          · simp
          · exact ih _ _

/-- C7: the internal/impossible-error branches are unreachable: for every
input token sequence, well-formed or not, `parse` never raises
`SQLiteParserImpossibleError` — the `ON DELETE|UPDATE` action dispatch and
the `COLLATE` sequence dispatch are shielded by their preceding
expecting-validation. -/
theorem parse_no_impossible_error (toks : List Token) :
    parse toks ≠ .error .impossibleError := by
  unfold parse
  split
  · simp
  · exact parseLoop_no_imp _ [] toks

/-- Successful runs are stable under extra fuel (expression family).  The
fuel is a model artifact: a successful run never depends on how much fuel was
left over. -/
theorem exprFamily_mono {a b : Nat} (hle : a ≤ b) :
    (∀ {s v}, matchPrefixE a s = .ok v → matchPrefixE b s = .ok v) ∧
    (∀ {prec s v}, matchExpressionAux a prec s = .ok v →
      matchExpressionAux b prec s = .ok v) ∧
    (∀ {prec left s v}, exprLoop a prec left s = .ok v →
      exprLoop b prec left s = .ok v) ∧
    (∀ {left p s v}, matchInfixE a left p s = .ok v →
      matchInfixE b left p s = .ok v) := by
  induction a generalizing b with
  | zero =>
    refine ⟨fun {s v} h => ?_, fun {prec s v} h => ?_,
      fun {prec left s v} h => ?_, fun {left p s v} h => ?_⟩
    · simp [matchPrefixE] at h
    · simp [matchExpressionAux] at h
    · simp [exprLoop] at h
    · simp [matchInfixE] at h
  | succ a ih =>
    obtain ⟨b, hb⟩ : ∃ b', b = b' + 1 :=
      ⟨b - 1, by omega⟩
    subst hb
    have hle' : a ≤ b := by omega
    obtain ⟨ihP, ihE, ihL, ihI⟩ := ih hle'
    have hP : ∀ {s v}, matchPrefixE (a + 1) s = .ok v →
        matchPrefixE (b + 1) s = .ok v := by
      intro s v h
      simp only [matchPrefixE] at h ⊢
      cases htype : (currentT s).type <;> simp only [htype] at h ⊢ <;>
        try exact h
      cases h1 : matchExpressionAux a (-1) ((advanceT s).2) with
      | error e => simp only [h1] at h; cases h
      | ok p =>
        obtain ⟨e1, s1⟩ := p
        simp only [h1] at h
        simp only [ihE h1]
        cases h2 : advanceE [.kind .RIGHT_PARENTHESIS] s1 with
        | error e => simp only [h2] at h; cases h
        | ok p2 => obtain ⟨t2, s2⟩ := p2; simp only [h2] at h ⊢; exact h
    have hI : ∀ {left p s v}, matchInfixE (a + 1) left p s = .ok v →
        matchInfixE (b + 1) left p s = .ok v := by
      intro left p s v h
      simp only [matchInfixE] at h ⊢
      cases h1 : matchExpressionAux a (p : Int) ((advanceT s).2) with
      | error e => simp only [h1] at h; cases h
      | ok p2 =>
        obtain ⟨r1, s1⟩ := p2
        simp only [h1] at h
        simp only [ihE h1]
        exact h
    have hL : ∀ {prec left s v}, exprLoop (a + 1) prec left s = .ok v →
        exprLoop (b + 1) prec left s = .ok v := by
      intro prec left s v h
      simp only [exprLoop] at h ⊢
      cases hpre : PRECEDENCE (currentT s).value with
      | none => simp only [hpre] at h ⊢; exact h
      | some p =>
        simp only [hpre] at h ⊢
        by_cases hge : prec ≥ (p : Int)
        · simp only [if_pos hge] at h ⊢; exact h
        · simp only [if_neg hge] at h ⊢
          cases h1 : matchInfixE a left p s with
          | error e => simp only [h1] at h; cases h
          | ok p2 =>
            obtain ⟨l1, s1⟩ := p2
            simp only [h1] at h
            simp only [ihI h1]
            exact ihL h
    have hE : ∀ {prec s v}, matchExpressionAux (a + 1) prec s = .ok v →
        matchExpressionAux (b + 1) prec s = .ok v := by
      intro prec s v h
      simp only [matchExpressionAux] at h ⊢
      cases h1 : matchPrefixE a s with
      | error e => simp only [h1] at h; cases h
      | ok p =>
        obtain ⟨l1, s1⟩ := p
        simp only [h1] at h
        simp only [ihP h1]
        exact ihL h
    exact ⟨hP, hE, hL, hI⟩

/-- Fuel monotonicity for `match_expression` at the default floor. -/
theorem matchExpression_mono {a b : Nat} (hle : a ≤ b) {s : List Token}
    {v : Expression × List Token} (h : matchExpression a s = .ok v) :
    matchExpression b s = .ok v :=
  (exprFamily_mono hle).2.1 h

/-- Fuel monotonicity for the check-constraint matcher. -/
theorem matchCheckConstraint_mono {a b : Nat} (hle : a ≤ b) {s : List Token}
    {v : ColumnConstraint × List Token}
    (h : matchCheckConstraint a s = .ok v) :
    matchCheckConstraint b s = .ok v := by
  unfold matchCheckConstraint at h ⊢
  cases h1 : checkE [.word "CHECK"] s with
  | error e => simp only [h1] at h; cases h
  | ok tk =>
  simp only [h1] at h ⊢
  cases h2 : advanceE [.kind .LEFT_PARENTHESIS] s with
  | error e => simp only [h2] at h; cases h
  | ok p =>
  obtain ⟨t1, s1⟩ := p
  simp only [h2] at h ⊢
  cases h3 : matchExpression a ((advanceT s1).2) with
  | error e => simp only [h3] at h; cases h
  | ok p2 =>
  obtain ⟨e1, s2⟩ := p2
  simp only [h3] at h
  simp only [matchExpression_mono hle h3]
  exact h

/-- Fuel monotonicity for the qualifier loop. -/
theorem clauseLoop_mono {a b : Nat} (hle : a ≤ b) {f : FKFields} {token : Token}
    {s : List Token} {v : FKFields × List Token}
    (h : clauseLoop a f token s = .ok v) : clauseLoop b f token s = .ok v := by
  induction a generalizing b f token s with
  | zero => simp [clauseLoop] at h
  | succ a ih =>
    obtain ⟨b, hb⟩ : ∃ b', b = b' + 1 := ⟨b - 1, by omega⟩
    subst hb
    have hle' : a ≤ b := by omega
    unfold clauseLoop at h ⊢
    by_cases hON : token.value = "ON"
    · simp only [if_pos hON] at h ⊢
      cases h1 : advanceE [.word "DELETE", .word "UPDATE"] s with
      | error e => simp only [h1] at h; cases h
      | ok p =>
        obtain ⟨du, s1⟩ := p
        simp only [h1] at h ⊢
        cases h2 : advanceE [.word "SET", .word "CASCADE", .word "RESTRICT",
            .word "NO"] s1 with
        | error e => simp only [h2] at h; cases h
        | ok p2 =>
          obtain ⟨t2, s2⟩ := p2
          simp only [h2] at h ⊢
          cases h3 : actionStep t2 s2 with
          | error e => simp only [h3] at h; cases h
          | ok p3 =>
            obtain ⟨value, s3⟩ := p3
            simp only [h3] at h ⊢
            exact ih hle' h
    · by_cases hM : token.value = "MATCH"
      · simp only [if_neg hON, if_pos hM] at h ⊢
        cases h1 : advanceE [.word "SIMPLE", .word "FULL", .word "PARTIAL"]
            s with
        | error e => simp only [h1] at h; cases h
        | ok p =>
          obtain ⟨mt, s1⟩ := p
          simp only [h1] at h ⊢
          exact ih hle' h
      · by_cases hD : token.value = "NOT" ∨ token.value = "DEFERRABLE"
        · simp only [if_neg hON, if_neg hM, if_pos hD] at h ⊢
          exact h
        · simp only [if_neg hON, if_neg hM, if_neg hD] at h ⊢
          exact h

/-- Fuel monotonicity for the foreign-key clause matcher. -/
theorem matchForeignKeyClause_mono {a b : Nat} (hle : a ≤ b)
    {cols : List String} {s : List Token}
    {v : ForeignKeyConstraint × List Token}
    (h : matchForeignKeyClause a cols s = .ok v) :
    matchForeignKeyClause b cols s = .ok v := by
  unfold matchForeignKeyClause at h ⊢
  cases h1 : checkE [.word "REFERENCES"] s with
  | error e => simp only [h1] at h; cases h
  | ok tk =>
  simp only [h1] at h ⊢
  cases h2 : advanceE [.kind .IDENTIFIER] s with
  | error e => simp only [h2] at h; cases h
  | ok p =>
  obtain ⟨ftTok, s1⟩ := p
  simp only [h2, advanceT] at h ⊢
  cases h3 : foreignColumnsStep (currentT s1.tail) s1.tail with
  | error e => simp only [h3] at h; cases h
  | ok p2 =>
  obtain ⟨⟨fcols, tok2⟩, s2⟩ := p2
  simp only [h3] at h ⊢
  cases h4 : clauseLoop a initFields tok2 s2 with
  | error e => simp only [h4] at h; cases h
  | ok p3 =>
  obtain ⟨f1, s3⟩ := p3
  simp only [h4] at h
  simp only [clauseLoop_mono hle h4]
  exact h

/-- Fuel monotonicity for the table-level foreign-key matcher. -/
theorem matchForeignKeyConstraint_mono {a b : Nat} (hle : a ≤ b)
    {s : List Token} {v : ForeignKeyConstraint × List Token}
    (h : matchForeignKeyConstraint a s = .ok v) :
    matchForeignKeyConstraint b s = .ok v := by
  unfold matchForeignKeyConstraint at h ⊢
  cases h1 : checkE [.word "FOREIGN"] s with
  | error e => simp only [h1] at h; cases h
  | ok tk =>
  simp only [h1] at h ⊢
  cases h2 : advanceE [.word "KEY"] s with
  | error e => simp only [h2] at h; cases h
  | ok p =>
  obtain ⟨t1, s1⟩ := p
  simp only [h2] at h ⊢
  cases h3 : advanceE [.kind .LEFT_PARENTHESIS] s1 with
  | error e => simp only [h3] at h; cases h
  | ok p2 =>
  obtain ⟨t2, s2⟩ := p2
  simp only [h3, advanceT] at h ⊢
  cases h4 : checkE [.kind .RIGHT_PARENTHESIS]
      (matchIdentifierList s2.tail).2 with
  | error e => simp only [h4] at h; cases h
  | ok tk2 =>
  simp only [h4] at h ⊢
  exact matchForeignKeyClause_mono hle h

/-- Fuel monotonicity for the column-constraint dispatch. -/
theorem columnConstraintStep_mono {a b : Nat} (hle : a ≤ b) {token : Token}
    {s : List Token} {v : List ColumnConstraint × List Token}
    (h : columnConstraintStep a token s = .ok v) :
    columnConstraintStep b token s = .ok v := by
  unfold columnConstraintStep at h ⊢
  by_cases c1 : token.type = TokenType.KEYWORD ∧ token.value = "PRIMARY"
  · simp only [if_pos c1] at h ⊢; exact h
  · simp only [if_neg c1] at h ⊢
    by_cases c2 : token.type = TokenType.KEYWORD ∧ token.value = "NOT"
    · simp only [if_pos c2] at h ⊢; exact h
    · simp only [if_neg c2] at h ⊢
      by_cases c3 : token.type = TokenType.KEYWORD ∧ token.value = "CHECK"
      · simp only [if_pos c3] at h ⊢
        cases h1 : matchCheckConstraint a s with
        | error e => simp [h1, Except.map] at h
        | ok p =>
          simp only [h1, Except.map] at h
          simp only [matchCheckConstraint_mono hle h1, Except.map]
          exact h
      · simp only [if_neg c3] at h ⊢
        by_cases c4 : token.type = TokenType.KEYWORD ∧ token.value = "COLLATE"
        · simp only [if_pos c4] at h ⊢; exact h
        · simp only [if_neg c4] at h ⊢
          by_cases c5 : token.type = TokenType.KEYWORD ∧
            token.value = "REFERENCES"
          · simp only [if_pos c5] at h ⊢
            cases h1 : matchForeignKeyClause a [] s with
            | error e => simp [h1, Except.map] at h
            | ok p =>
              simp only [h1, Except.map] at h
              simp only [matchForeignKeyClause_mono hle h1, Except.map]
              exact h
          · simp only [if_neg c5] at h ⊢; exact h

/-- Fuel monotonicity for the column matcher. -/
theorem matchColumn_mono {a b : Nat} (hle : a ≤ b) {s : List Token}
    {v : Column × List Token} (h : matchColumn a s = .ok v) :
    matchColumn b s = .ok v := by
  unfold matchColumn at h ⊢
  cases h1 : checkE [.kind .IDENTIFIER] s with
  | error e => simp only [h1] at h; cases h
  | ok tk =>
  simp only [h1] at h ⊢
  cases h2 : advanceE [.kind .IDENTIFIER] s with
  | error e => simp only [h2] at h; cases h
  | ok p =>
  obtain ⟨t1, s1⟩ := p
  simp only [h2, advanceT] at h ⊢
  cases h3 : columnConstraintStep a (currentT s1.tail) s1.tail with
  | error e => simp only [h3] at h; cases h
  | ok p2 =>
  obtain ⟨cs, s2⟩ := p2
  simp only [h3] at h
  simp only [columnConstraintStep_mono hle h3]
  exact h

/-- Fuel monotonicity for the column-or-constraint dispatch. -/
theorem matchColumnOrConstraint_mono {a b : Nat} (hle : a ≤ b)
    {s : List Token} {v : Option ColumnOrConstraint × List Token}
    (h : matchColumnOrConstraint a s = .ok v) :
    matchColumnOrConstraint b s = .ok v := by
  simp only [matchColumnOrConstraint] at h ⊢
  by_cases c1 : (currentT s).type = TokenType.KEYWORD ∧
    (currentT s).value = "FOREIGN"
  · simp only [if_pos c1] at h ⊢
    cases h1 : matchForeignKeyConstraint a s with
    | error e => simp [h1, Except.map] at h
    | ok p =>
      simp only [h1, Except.map] at h
      simp only [matchForeignKeyConstraint_mono hle h1, Except.map]
      exact h
  · simp only [if_neg c1] at h ⊢
    by_cases c2 : (currentT s).type = TokenType.IDENTIFIER
    · simp only [if_pos c2] at h ⊢
      cases h1 : matchColumn a s with
      | error e => simp [h1, Except.map] at h
      | ok p =>
        simp only [h1, Except.map] at h
        simp only [matchColumn_mono hle h1, Except.map]
        exact h
    · simp only [if_neg c2] at h ⊢; exact h

/-- Fuel monotonicity for the element loop. -/
theorem createElements_mono {a b : Nat} (hle : a ≤ b) {columns : List Column}
    {constraints : List (Option ForeignKeyConstraint)} {s : List Token}
    {v : (List Column × List (Option ForeignKeyConstraint)) × List Token}
    (h : createElements a columns constraints s = .ok v) :
    createElements b columns constraints s = .ok v := by
  induction a generalizing b columns constraints s with
  | zero => simp [createElements] at h
  | succ a ih =>
    obtain ⟨b, hb⟩ : ∃ b', b = b' + 1 := ⟨b - 1, by omega⟩
    subst hb
    have hle' : a ≤ b := by omega
    unfold createElements at h ⊢
    simp only [advanceT] at h ⊢
    by_cases c1 : (currentT s.tail).type = TokenType.RIGHT_PARENTHESIS
    · simp only [if_pos c1] at h ⊢; exact h
    · simp only [if_neg c1] at h ⊢
      cases h1 : matchColumnOrConstraint a s.tail with
      | error e => simp only [h1] at h; cases h
      | ok p =>
        obtain ⟨cc, s1⟩ := p
        simp only [h1] at h
        simp only [matchColumnOrConstraint_mono hle' h1]
        cases h2 : elementStep cc columns constraints with
        | error e => simp only [h2] at h; cases h
        | ok p2 =>
          obtain ⟨cols2, cons2⟩ := p2
          simp only [h2] at h ⊢
          cases h3 : checkE [.kind .COMMA, .kind .RIGHT_PARENTHESIS] s1 with
          | error e => simp only [h3] at h; cases h
          | ok tk =>
            simp only [h3] at h ⊢
            by_cases c2 : tk.type = TokenType.RIGHT_PARENTHESIS
            · simp only [if_pos c2] at h ⊢; exact h
            · simp only [if_neg c2] at h ⊢; exact ih hle' h

/-- Fuel monotonicity for the create-statement matcher. -/
theorem matchCreateStatement_mono {a b : Nat} (hle : a ≤ b) {s : List Token}
    {v : Statement × List Token} (h : matchCreateStatement a s = .ok v) :
    matchCreateStatement b s = .ok v := by
  unfold matchCreateStatement at h ⊢
  cases h1 : advanceE [.word "TABLE", .word "TEMPORARY", .word "TEMP"] s with
  | error e => simp only [h1] at h; cases h
  | ok p =>
  obtain ⟨t1, s1⟩ := p
  simp only [h1] at h ⊢
  cases h2 : temporaryStep t1 s1 with
  | error e => simp only [h2] at h; cases h
  | ok p2 =>
  obtain ⟨temp, s2⟩ := p2
  simp only [h2] at h ⊢
  cases h3 : advanceE [.word "IF", .kind .IDENTIFIER] s2 with
  | error e => simp only [h3] at h; cases h
  | ok p3 =>
  obtain ⟨t3, s3⟩ := p3
  simp only [h3] at h ⊢
  cases h4 : ifNotExistsStep t3 s3 with
  | error e => simp only [h4] at h; cases h
  | ok p4 =>
  obtain ⟨⟨ine, nameTok⟩, s4⟩ := p4
  simp only [h4] at h ⊢
  cases h5 : advanceE [.kind .DOT, .kind .LEFT_PARENTHESIS] s4 with
  | error e => simp only [h5] at h; cases h
  | ok p5 =>
  obtain ⟨t5, s5⟩ := p5
  simp only [h5] at h ⊢
  cases h6 : tableNameStep nameTok t5 s5 with
  | error e => simp only [h6] at h; cases h
  | ok p6 =>
  obtain ⟨nm, s6⟩ := p6
  simp only [h6] at h ⊢
  cases h7 : createElements a [] [] s6 with
  | error e => simp only [h7] at h; cases h
  | ok p7 =>
  obtain ⟨⟨cols, cons⟩, s7⟩ := p7
  simp only [h7] at h
  simp only [createElements_mono hle h7]
  exact h

/-- Fuel monotonicity for the select matcher. -/
theorem matchSelectStatement_mono {a b : Nat} (hle : a ≤ b) {s : List Token}
    {v : Statement × List Token} (h : matchSelectStatement a s = .ok v) :
    matchSelectStatement b s = .ok v := by
  unfold matchSelectStatement at h ⊢
  cases h1 : matchExpression a ((advanceT s).2) with
  | error e => simp only [h1] at h; cases h
  | ok p =>
  obtain ⟨e1, s1⟩ := p
  simp only [h1] at h
  simp only [matchExpression_mono hle h1]
  exact h

/-- Fuel monotonicity for the statement dispatcher. -/
theorem matchStatement_mono {a b : Nat} (hle : a ≤ b) {s : List Token}
    {v : Statement × List Token} (h : matchStatement a s = .ok v) :
    matchStatement b s = .ok v := by
  simp only [matchStatement] at h ⊢
  by_cases c1 : (currentT s).type = TokenType.KEYWORD
  · simp only [if_pos c1] at h ⊢
    by_cases c2 : (currentT s).value = "CREATE"
    · simp only [if_pos c2] at h ⊢
      exact matchCreateStatement_mono hle h
    · simp only [if_neg c2] at h ⊢
      by_cases c3 : (currentT s).value = "SELECT"
      · simp only [if_pos c3] at h ⊢
        exact matchSelectStatement_mono hle h
      · simp only [if_neg c3] at h; cases h
  · simp only [if_neg c1] at h; cases h

/-- Matchers only ever move the cursor forward: a successful
`advance(expecting=...)` leaves a suffix of the stream. -/
theorem advanceE_suffix {es : List Expecting} {s : List Token} {t : Token}
    {s₁ : List Token} (h : advanceE es s = .ok (t, s₁)) : s₁ <:+ s := by
  obtain ⟨-, rfl, -⟩ := advanceE_ok h
  exact List.tail_suffix s

/-- The identifier-list matcher leaves a suffix of the stream. -/
theorem matchIdentifierList_suffix : ∀ s : List Token,
    (matchIdentifierList s).2 <:+ s := by
  intro s
  induction s with
  | nil => exact List.suffix_rfl
  | cons t ts ih =>
    simp only [matchIdentifierList]
    by_cases h1 : t.type = TokenType.IDENTIFIER
    · simp only [if_pos h1]
      exact ih.trans (List.suffix_cons t ts)
    · simp only [if_neg h1]
      by_cases h2 : t.type = TokenType.COMMA
      · simp only [if_pos h2]
        exact ih.trans (List.suffix_cons t ts)
      · simp only [if_neg h2]
        exact List.suffix_rfl

/-- The action decoder leaves a suffix of the stream. -/
theorem actionStep_suffix {t2 : Token} {s : List Token}
    {v : OnDeleteOrUpdate} {s₁ : List Token}
    (h : actionStep t2 s = .ok (v, s₁)) : s₁ <:+ s := by
  unfold actionStep at h
  split at h
  · cases h1 : advanceE [.word "NULL", .word "DEFAULT"] s with
    | error e => simp only [h1] at h; cases h
    | ok p =>
      obtain ⟨t3, s2⟩ := p
      simp only [h1] at h
      cases h
      exact advanceE_suffix h1
  · split at h
    · cases h1 : advanceE [.word "ACTION"] s with
      | error e => simp only [h1] at h; cases h
      | ok p =>
        obtain ⟨t3, s2⟩ := p
        simp only [h1] at h
        cases h
        exact advanceE_suffix h1
    · split at h
      · cases h; exact List.suffix_rfl
      · split at h
        · cases h; exact List.suffix_rfl
        · cases h

/-- The deferrability polarity step leaves a suffix of the stream. -/
theorem deferrablePolarity_suffix {token : Token} {f : FKFields}
    {s : List Token} {g : FKFields} {s₁ : List Token}
    (h : deferrablePolarity token f s = .ok (g, s₁)) : s₁ <:+ s := by
  unfold deferrablePolarity at h
  split at h
  · cases h1 : advanceE [.word "DEFERRABLE"] s with
    | error e => simp only [h1] at h; cases h
    | ok p =>
      obtain ⟨t3, s2⟩ := p
      simp only [h1] at h
      cases h
      exact advanceE_suffix h1
  · cases h; exact List.suffix_rfl

/-- The `[NOT] DEFERRABLE ...` arm leaves a suffix of the stream. -/
theorem deferrableStep_suffix {token : Token} {f : FKFields} {s : List Token}
    {g : FKFields} {s₁ : List Token}
    (h : deferrableStep token f s = .ok (g, s₁)) : s₁ <:+ s := by
  unfold deferrableStep at h
  cases h1 : deferrablePolarity token f s with
  | error e => simp only [h1] at h; cases h
  | ok p =>
  obtain ⟨f1, s2⟩ := p
  simp only [h1, advanceT] at h
  split at h
  · cases h
    exact (List.tail_suffix s2).trans (deferrablePolarity_suffix h1)
  · cases h2 : advanceE [.word "DEFERRED", .word "IMMEDIATE"] s2.tail with
    | error e => simp only [h2] at h; cases h
    | ok p2 =>
      obtain ⟨t3, s3⟩ := p2
      simp only [h2, advanceT] at h
      cases h
      exact ((List.tail_suffix s3).trans (advanceE_suffix h2)).trans
        ((List.tail_suffix s2).trans (deferrablePolarity_suffix h1))

/-- The qualifier loop leaves a suffix of the stream. -/
theorem clauseLoop_suffix {fuel : Nat} {f : FKFields} {token : Token}
    {s : List Token} {g : FKFields} {s₁ : List Token}
    (h : clauseLoop fuel f token s = .ok (g, s₁)) : s₁ <:+ s := by
  induction fuel generalizing f token s with
  | zero => simp [clauseLoop] at h
  | succ fuel ih =>
    unfold clauseLoop at h
    split at h
    · cases h1 : advanceE [.word "DELETE", .word "UPDATE"] s with
      | error e => simp only [h1] at h; cases h
      | ok p =>
        obtain ⟨du, s2⟩ := p
        simp only [h1] at h
        cases h2 : advanceE [.word "SET", .word "CASCADE", .word "RESTRICT",
            .word "NO"] s2 with
        | error e => simp only [h2] at h; cases h
        | ok p2 =>
          obtain ⟨t2, s3⟩ := p2
          simp only [h2] at h
          cases h3 : actionStep t2 s3 with
          | error e => simp only [h3] at h; cases h
          | ok p3 =>
            obtain ⟨value, s4⟩ := p3
            simp only [h3, advanceT] at h
            exact (ih h).trans (((List.tail_suffix s4).trans
              (actionStep_suffix h3)).trans ((advanceE_suffix h2).trans
                (advanceE_suffix h1)))
    · split at h
      · cases h1 : advanceE [.word "SIMPLE", .word "FULL", .word "PARTIAL"]
            s with
        | error e => simp only [h1] at h; cases h
        | ok p =>
          obtain ⟨mt, s2⟩ := p
          simp only [h1, advanceT] at h
          exact (ih h).trans ((List.tail_suffix s2).trans
            (advanceE_suffix h1))
      · split at h
        · exact deferrableStep_suffix h
        · cases h; exact List.suffix_rfl

/-- The foreign-column-list step leaves a suffix of the stream. -/
theorem foreignColumnsStep_suffix {token : Token} {s : List Token}
    {cols : List String} {t2 : Token} {s₁ : List Token}
    (h : foreignColumnsStep token s = .ok ((cols, t2), s₁)) : s₁ <:+ s := by
  simp only [foreignColumnsStep, advanceT] at h
  split at h
  · cases h1 : checkE [.kind .RIGHT_PARENTHESIS]
        (matchIdentifierList s.tail).2 with
    | error e => simp only [h1] at h; cases h
    | ok tk =>
      simp only [h1] at h
      cases h
      exact ((List.tail_suffix (matchIdentifierList s.tail).2).trans
        (matchIdentifierList_suffix s.tail)).trans (List.tail_suffix s)
  · cases h; exact List.suffix_rfl

/-- The foreign-key clause matcher leaves a suffix of the stream. -/
theorem matchForeignKeyClause_suffix {fuel : Nat} {cols : List String}
    {s : List Token} {fk : ForeignKeyConstraint} {s₁ : List Token}
    (h : matchForeignKeyClause fuel cols s = .ok (fk, s₁)) : s₁ <:+ s := by
  unfold matchForeignKeyClause at h
  cases h1 : checkE [.word "REFERENCES"] s with
  | error e => simp only [h1] at h; cases h
  | ok tk =>
  simp only [h1] at h
  cases h2 : advanceE [.kind .IDENTIFIER] s with
  | error e => simp only [h2] at h; cases h
  | ok p =>
  obtain ⟨ftTok, s2⟩ := p
  simp only [h2, advanceT] at h
  cases h3 : foreignColumnsStep (currentT s2.tail) s2.tail with
  | error e => simp only [h3] at h; cases h
  | ok p2 =>
  obtain ⟨⟨fcols, tok2⟩, s3⟩ := p2
  simp only [h3] at h
  cases h4 : clauseLoop fuel initFields tok2 s3 with
  | error e => simp only [h4] at h; cases h
  | ok p3 =>
  obtain ⟨f1, s4⟩ := p3
  simp only [h4] at h
  cases h
  exact ((clauseLoop_suffix h4).trans (foreignColumnsStep_suffix h3)).trans
    ((List.tail_suffix s2).trans (advanceE_suffix h2))

/-- The table-level foreign-key matcher leaves a suffix of the stream. -/
theorem matchForeignKeyConstraint_suffix {fuel : Nat} {s : List Token}
    {fk : ForeignKeyConstraint} {s₁ : List Token}
    (h : matchForeignKeyConstraint fuel s = .ok (fk, s₁)) : s₁ <:+ s := by
  unfold matchForeignKeyConstraint at h
  cases h1 : checkE [.word "FOREIGN"] s with
  | error e => simp only [h1] at h; cases h
  | ok tk =>
  simp only [h1] at h
  cases h2 : advanceE [.word "KEY"] s with
  | error e => simp only [h2] at h; cases h
  | ok p =>
  obtain ⟨t1, s2⟩ := p
  simp only [h2] at h
  cases h3 : advanceE [.kind .LEFT_PARENTHESIS] s2 with
  | error e => simp only [h3] at h; cases h
  | ok p2 =>
  obtain ⟨t2, s3⟩ := p2
  simp only [h3, advanceT] at h
  cases h4 : checkE [.kind .RIGHT_PARENTHESIS]
      (matchIdentifierList s3.tail).2 with
  | error e => simp only [h4] at h; cases h
  | ok tk2 =>
  simp only [h4, advanceT] at h
  exact (matchForeignKeyClause_suffix h).trans
    ((((List.tail_suffix (matchIdentifierList s3.tail).2).trans
      (matchIdentifierList_suffix s3.tail)).trans
        (List.tail_suffix s3)).trans
          ((advanceE_suffix h3).trans (advanceE_suffix h2)))

/-- The primary-key matcher leaves a suffix of the stream. -/
theorem matchPrimaryKeyConstraint_suffix {s : List Token}
    {c : ColumnConstraint} {s₁ : List Token}
    (h : matchPrimaryKeyConstraint s = .ok (c, s₁)) : s₁ <:+ s := by
  unfold matchPrimaryKeyConstraint at h
  cases h1 : checkE [.word "PRIMARY"] s with
  | error e => simp only [h1] at h; cases h
  | ok tk =>
  simp only [h1] at h
  cases h2 : advanceE [.word "KEY"] s with
  | error e => simp only [h2] at h; cases h
  | ok p =>
  obtain ⟨t1, s2⟩ := p
  simp only [h2, advanceT] at h
  cases h
  exact (List.tail_suffix s2).trans (advanceE_suffix h2)

/-- The not-null matcher leaves a suffix of the stream. -/
theorem matchNotNullConstraint_suffix {s : List Token} {c : ColumnConstraint}
    {s₁ : List Token} (h : matchNotNullConstraint s = .ok (c, s₁)) :
    s₁ <:+ s := by
  unfold matchNotNullConstraint at h
  cases h1 : checkE [.word "NOT"] s with
  | error e => simp only [h1] at h; cases h
  | ok tk =>
  simp only [h1] at h
  cases h2 : advanceE [.word "NULL"] s with
  | error e => simp only [h2] at h; cases h
  | ok p =>
  obtain ⟨t1, s2⟩ := p
  simp only [h2, advanceT] at h
  cases h
  exact (List.tail_suffix s2).trans (advanceE_suffix h2)

/-- The collate matcher leaves a suffix of the stream. -/
theorem matchCollateConstraint_suffix {s : List Token} {c : ColumnConstraint}
    {s₁ : List Token} (h : matchCollateConstraint s = .ok (c, s₁)) :
    s₁ <:+ s := by
  unfold matchCollateConstraint at h
  cases h1 : checkE [.word "COLLATE"] s with
  | error e => simp only [h1] at h; cases h
  | ok tk =>
  simp only [h1] at h
  cases h2 : advanceE [.pair .IDENTIFIER "BINARY", .pair .IDENTIFIER "NOCASE",
      .pair .IDENTIFIER "RTRIM"] s with
  | error e => simp only [h2] at h; cases h
  | ok p =>
  obtain ⟨t1, s2⟩ := p
  simp only [h2, advanceT] at h
  have hsfx : s2.tail <:+ s := (List.tail_suffix s2).trans (advanceE_suffix h2)
  split at h
  · cases h; exact hsfx
  · split at h
    · cases h; exact hsfx
    · split at h
      · cases h; exact hsfx
      · cases h

/-- The expression family leaves a suffix of the stream. -/
theorem exprFamily_suffix (fuel : Nat) :
    (∀ {s v s₁}, matchPrefixE fuel s = .ok (v, s₁) → s₁ <:+ s) ∧
    (∀ {prec s v s₁}, matchExpressionAux fuel prec s = .ok (v, s₁) →
      s₁ <:+ s) ∧
    (∀ {prec left s v s₁}, exprLoop fuel prec left s = .ok (v, s₁) →
      s₁ <:+ s) ∧
    (∀ {left p s v s₁}, matchInfixE fuel left p s = .ok (v, s₁) →
      s₁ <:+ s) := by
  induction fuel with
  | zero =>
    refine ⟨fun {s v s₁} h => ?_, fun {prec s v s₁} h => ?_,
      fun {prec left s v s₁} h => ?_, fun {left p s v s₁} h => ?_⟩
    · simp [matchPrefixE] at h
    · simp [matchExpressionAux] at h
    · simp [exprLoop] at h
    · simp [matchInfixE] at h
  | succ fuel ih =>
    obtain ⟨ihP, ihE, ihL, ihI⟩ := ih
    have hP : ∀ {s v s₁}, matchPrefixE (fuel + 1) s = .ok (v, s₁) →
        s₁ <:+ s := by
      intro s v s₁ h
      simp only [matchPrefixE] at h
      cases htype : (currentT s).type <;> simp only [htype] at h
      case IDENTIFIER => cases h; exact List.tail_suffix s
      case STRING => cases h; exact List.tail_suffix s
      case INTEGER => cases h; exact List.tail_suffix s
      case LEFT_PARENTHESIS =>
        cases h1 : matchExpressionAux fuel (-1) ((advanceT s).2) with
        | error e => simp only [h1] at h; cases h
        | ok p =>
          obtain ⟨e1, s2⟩ := p
          simp only [h1] at h
          cases h2 : advanceE [.kind .RIGHT_PARENTHESIS] s2 with
          | error e => simp only [h2] at h; cases h
          | ok p2 =>
            obtain ⟨t2, s3⟩ := p2
            simp only [h2] at h
            cases h
            exact (((List.tail_suffix s3).trans (advanceE_suffix h2)).trans
              (ihE h1)).trans (List.tail_suffix s)
      all_goals cases h
    have hI : ∀ {left p s v s₁},
        matchInfixE (fuel + 1) left p s = .ok (v, s₁) → s₁ <:+ s := by
      intro left p s v s₁ h
      simp only [matchInfixE] at h
      cases h1 : matchExpressionAux fuel (p : Int) ((advanceT s).2) with
      | error e => simp only [h1] at h; cases h
      | ok p2 =>
        obtain ⟨r1, s2⟩ := p2
        simp only [h1] at h
        cases h
        exact (ihE h1).trans (List.tail_suffix s)
    have hL : ∀ {prec left s v s₁},
        exprLoop (fuel + 1) prec left s = .ok (v, s₁) → s₁ <:+ s := by
      intro prec left s v s₁ h
      simp only [exprLoop] at h
      cases hpre : PRECEDENCE (currentT s).value with
      | none => simp only [hpre] at h; cases h; exact List.suffix_rfl
      | some p =>
        simp only [hpre] at h
        by_cases hge : prec ≥ (p : Int)
        · simp only [if_pos hge] at h; cases h; exact List.suffix_rfl
        · simp only [if_neg hge] at h
          cases h1 : matchInfixE fuel left p s with
          | error e => simp only [h1] at h; cases h
          | ok p2 =>
            obtain ⟨l1, s2⟩ := p2
            simp only [h1] at h
            exact (ihL h).trans (ihI h1)
    have hE : ∀ {prec s v s₁},
        matchExpressionAux (fuel + 1) prec s = .ok (v, s₁) → s₁ <:+ s := by
      intro prec s v s₁ h
      simp only [matchExpressionAux] at h
      cases h1 : matchPrefixE fuel s with
      | error e => simp only [h1] at h; cases h
      | ok p =>
        obtain ⟨l1, s2⟩ := p
        simp only [h1] at h
        exact (ihL h).trans (ihP h1)
    exact ⟨hP, hE, hL, hI⟩

/-- The check-constraint matcher leaves a suffix of the stream. -/
theorem matchCheckConstraint_suffix {fuel : Nat} {s : List Token}
    {c : ColumnConstraint} {s₁ : List Token}
    (h : matchCheckConstraint fuel s = .ok (c, s₁)) : s₁ <:+ s := by
  unfold matchCheckConstraint at h
  cases h1 : checkE [.word "CHECK"] s with
  | error e => simp only [h1] at h; cases h
  | ok tk =>
  simp only [h1] at h
  cases h2 : advanceE [.kind .LEFT_PARENTHESIS] s with
  | error e => simp only [h2] at h; cases h
  | ok p =>
  obtain ⟨t1, s2⟩ := p
  simp only [h2] at h
  cases h3 : matchExpression fuel ((advanceT s2).2) with
  | error e => simp only [h3] at h; cases h
  | ok p2 =>
  obtain ⟨e1, s3⟩ := p2
  simp only [h3] at h
  cases h4 : checkE [.kind .RIGHT_PARENTHESIS] s3 with
  | error e => simp only [h4] at h; cases h
  | ok tk2 =>
  simp only [h4, advanceT] at h
  cases h
  exact ((List.tail_suffix s3).trans
    (((exprFamily_suffix fuel).2.1 h3).trans (List.tail_suffix s2))).trans
      (advanceE_suffix h2)

/-- The column-constraint dispatch leaves a suffix of the stream. -/
theorem columnConstraintStep_suffix {fuel : Nat} {token : Token}
    {s : List Token} {cs : List ColumnConstraint} {s₁ : List Token}
    (h : columnConstraintStep fuel token s = .ok (cs, s₁)) : s₁ <:+ s := by
  unfold columnConstraintStep at h
  split at h
  · cases h1 : matchPrimaryKeyConstraint s with
    | error e => simp [h1, Except.map] at h
    | ok p =>
      obtain ⟨c1, s2⟩ := p
      simp only [h1, Except.map] at h
      cases h
      exact matchPrimaryKeyConstraint_suffix h1
  · split at h
    · cases h1 : matchNotNullConstraint s with
      | error e => simp [h1, Except.map] at h
      | ok p =>
        obtain ⟨c1, s2⟩ := p
        simp only [h1, Except.map] at h
        cases h
        exact matchNotNullConstraint_suffix h1
    · split at h
      · cases h1 : matchCheckConstraint fuel s with
        | error e => simp [h1, Except.map] at h
        | ok p =>
          obtain ⟨c1, s2⟩ := p
          simp only [h1, Except.map] at h
          cases h
          exact matchCheckConstraint_suffix h1
      · split at h
        · cases h1 : matchCollateConstraint s with
          | error e => simp [h1, Except.map] at h
          | ok p =>
            obtain ⟨c1, s2⟩ := p
            simp only [h1, Except.map] at h
            cases h
            exact matchCollateConstraint_suffix h1
        · split at h
          · cases h1 : matchForeignKeyClause fuel [] s with
            | error e => simp [h1, Except.map] at h
            | ok p =>
              obtain ⟨fk1, s2⟩ := p
              simp only [h1, Except.map] at h
              cases h
              exact matchForeignKeyClause_suffix h1
          · cases h; exact List.suffix_rfl

/-- The column matcher leaves a suffix of the stream. -/
theorem matchColumn_suffix {fuel : Nat} {s : List Token} {col : Column}
    {s₁ : List Token} (h : matchColumn fuel s = .ok (col, s₁)) : s₁ <:+ s := by
  unfold matchColumn at h
  cases h1 : checkE [.kind .IDENTIFIER] s with
  | error e => simp only [h1] at h; cases h
  | ok tk =>
  simp only [h1] at h
  cases h2 : advanceE [.kind .IDENTIFIER] s with
  | error e => simp only [h2] at h; cases h
  | ok p =>
  obtain ⟨t1, s2⟩ := p
  simp only [h2, advanceT] at h
  cases h3 : columnConstraintStep fuel (currentT s2.tail) s2.tail with
  | error e => simp only [h3] at h; cases h
  | ok p2 =>
  obtain ⟨cs, s3⟩ := p2
  simp only [h3] at h
  cases h
  exact ((columnConstraintStep_suffix h3).trans (List.tail_suffix s2)).trans
    (advanceE_suffix h2)

/-- The column-or-constraint dispatch leaves a suffix of the stream. -/
theorem matchColumnOrConstraint_suffix {fuel : Nat} {s : List Token}
    {cc : Option ColumnOrConstraint} {s₁ : List Token}
    (h : matchColumnOrConstraint fuel s = .ok (cc, s₁)) : s₁ <:+ s := by
  simp only [matchColumnOrConstraint] at h
  split at h
  · cases h1 : matchForeignKeyConstraint fuel s with
    | error e => simp [h1, Except.map] at h
    | ok p =>
      obtain ⟨fk1, s2⟩ := p
      simp only [h1, Except.map] at h
      cases h
      exact matchForeignKeyConstraint_suffix h1
  · split at h
    · cases h1 : matchColumn fuel s with
      | error e => simp [h1, Except.map] at h
      | ok p =>
        obtain ⟨c1, s2⟩ := p
        simp only [h1, Except.map] at h
        cases h
        exact matchColumn_suffix h1
    · cases h; exact List.suffix_rfl

/-- The element loop leaves a suffix of the stream. -/
theorem createElements_suffix {fuel : Nat} {columns : List Column}
    {constraints : List (Option ForeignKeyConstraint)} {s : List Token}
    {v : List Column × List (Option ForeignKeyConstraint)} {s₁ : List Token}
    (h : createElements fuel columns constraints s = .ok (v, s₁)) :
    s₁ <:+ s := by
  induction fuel generalizing columns constraints s with
  | zero => simp [createElements] at h
  | succ fuel ih =>
    unfold createElements at h
    simp only [advanceT] at h
    split at h
    · cases h; exact List.tail_suffix s
    · cases h1 : matchColumnOrConstraint fuel s.tail with
      | error e => simp only [h1] at h; cases h
      | ok p =>
        obtain ⟨cc, s2⟩ := p
        simp only [h1] at h
        cases h2 : elementStep cc columns constraints with
        | error e => simp only [h2] at h; cases h
        | ok p2 =>
          obtain ⟨cols2, cons2⟩ := p2
          simp only [h2] at h
          cases h3 : checkE [.kind .COMMA, .kind .RIGHT_PARENTHESIS] s2 with
          | error e => simp only [h3] at h; cases h
          | ok tk =>
            simp only [h3] at h
            have hs2 : s2 <:+ s :=
              (matchColumnOrConstraint_suffix h1).trans (List.tail_suffix s)
            split at h
            · cases h; exact hs2
            · exact (ih h).trans hs2

/-- The temporary-prefix step leaves a suffix of the stream. -/
theorem temporaryStep_suffix {token : Token} {s : List Token} {b : Bool}
    {s₁ : List Token} (h : temporaryStep token s = .ok (b, s₁)) : s₁ <:+ s := by
  unfold temporaryStep at h
  split at h
  · cases h1 : advanceE [.word "TABLE"] s with
    | error e => simp only [h1] at h; cases h
    | ok p =>
      obtain ⟨t1, s2⟩ := p
      simp only [h1] at h
      cases h
      exact advanceE_suffix h1
  · cases h; exact List.suffix_rfl

/-- The if-not-exists step leaves a suffix of the stream. -/
theorem ifNotExistsStep_suffix {token : Token} {s : List Token}
    {v : Bool × Token} {s₁ : List Token}
    (h : ifNotExistsStep token s = .ok (v, s₁)) : s₁ <:+ s := by
  unfold ifNotExistsStep at h
  split at h
  · cases h1 : advanceE [.word "NOT"] s with
    | error e => simp only [h1] at h; cases h
    | ok p =>
      obtain ⟨t1, s2⟩ := p
      simp only [h1] at h
      cases h2 : advanceE [.word "EXISTS"] s2 with
      | error e => simp only [h2] at h; cases h
      | ok p2 =>
        obtain ⟨t2, s3⟩ := p2
        simp only [h2] at h
        cases h3 : advanceE [.kind .IDENTIFIER] s3 with
        | error e => simp only [h3] at h; cases h
        | ok p3 =>
          obtain ⟨t3, s4⟩ := p3
          simp only [h3] at h
          cases h
          exact ((advanceE_suffix h3).trans (advanceE_suffix h2)).trans
            (advanceE_suffix h1)
  · cases h; exact List.suffix_rfl

/-- The table-name step leaves a suffix of the stream. -/
theorem tableNameStep_suffix {name_token token : Token} {s : List Token}
    {nm : CreateName} {s₁ : List Token}
    (h : tableNameStep name_token token s = .ok (nm, s₁)) : s₁ <:+ s := by
  unfold tableNameStep at h
  split at h
  · cases h1 : advanceE [.kind .IDENTIFIER] s with
    | error e => simp only [h1] at h; cases h
    | ok p =>
      obtain ⟨t1, s2⟩ := p
      simp only [h1] at h
      cases h2 : advanceE [.kind .LEFT_PARENTHESIS] s2 with
      | error e => simp only [h2] at h; cases h
      | ok p2 =>
        obtain ⟨t2, s3⟩ := p2
        simp only [h2] at h
        cases h
        exact (advanceE_suffix h2).trans (advanceE_suffix h1)
  · cases h; exact List.suffix_rfl

/-- The without-rowid step leaves a suffix of the stream. -/
theorem withoutRowidStep_suffix {token : Token} {s : List Token} {b : Bool}
    {s₁ : List Token} (h : withoutRowidStep token s = .ok (b, s₁)) :
    s₁ <:+ s := by
  unfold withoutRowidStep at h
  split at h
  · cases h1 : advanceE [.pair .IDENTIFIER "ROWID"] s with
    | error e => simp only [h1] at h; cases h
    | ok p =>
      obtain ⟨t1, s2⟩ := p
      simp only [h1] at h
      cases h
      exact advanceE_suffix h1
  · cases h; exact List.suffix_rfl

/-- The create-statement matcher leaves a suffix of the stream. -/
theorem matchCreateStatement_suffix {fuel : Nat} {s : List Token}
    {st : Statement} {s₁ : List Token}
    (h : matchCreateStatement fuel s = .ok (st, s₁)) : s₁ <:+ s := by
  unfold matchCreateStatement at h
  cases h1 : advanceE [.word "TABLE", .word "TEMPORARY", .word "TEMP"] s with
  | error e => simp only [h1] at h; cases h
  | ok p =>
  obtain ⟨t1, s2⟩ := p
  simp only [h1] at h
  cases h2 : temporaryStep t1 s2 with
  | error e => simp only [h2] at h; cases h
  | ok p2 =>
  obtain ⟨temp, s3⟩ := p2
  simp only [h2] at h
  cases h3 : advanceE [.word "IF", .kind .IDENTIFIER] s3 with
  | error e => simp only [h3] at h; cases h
  | ok p3 =>
  obtain ⟨t3, s4⟩ := p3
  simp only [h3] at h
  cases h4 : ifNotExistsStep t3 s4 with
  | error e => simp only [h4] at h; cases h
  | ok p4 =>
  obtain ⟨⟨ine, nameTok⟩, s5⟩ := p4
  simp only [h4] at h
  cases h5 : advanceE [.kind .DOT, .kind .LEFT_PARENTHESIS] s5 with
  | error e => simp only [h5] at h; cases h
  | ok p5 =>
  obtain ⟨t5, s6⟩ := p5
  simp only [h5] at h
  cases h6 : tableNameStep nameTok t5 s6 with
  | error e => simp only [h6] at h; cases h
  | ok p6 =>
  obtain ⟨nm, s7⟩ := p6
  simp only [h6] at h
  cases h7 : createElements fuel [] [] s7 with
  | error e => simp only [h7] at h; cases h
  | ok p7 =>
  obtain ⟨⟨cols, cons⟩, s8⟩ := p7
  simp only [h7, advanceT] at h
  cases h8 : withoutRowidStep (currentT s8.tail) s8.tail with
  | error e => simp only [h8] at h; cases h
  | ok p8 =>
  obtain ⟨wr, s9⟩ := p8
  simp only [h8] at h
  cases h
  exact (((withoutRowidStep_suffix h8).trans (List.tail_suffix s8)).trans
    ((createElements_suffix h7).trans (tableNameStep_suffix h6))).trans
      (((advanceE_suffix h5).trans (ifNotExistsStep_suffix h4)).trans
        (((advanceE_suffix h3).trans (temporaryStep_suffix h2)).trans
          (advanceE_suffix h1)))

/-- The select matcher leaves a suffix of the stream. -/
theorem matchSelectStatement_suffix {fuel : Nat} {s : List Token}
    {st : Statement} {s₁ : List Token}
    (h : matchSelectStatement fuel s = .ok (st, s₁)) : s₁ <:+ s := by
  unfold matchSelectStatement at h
  cases h1 : matchExpression fuel ((advanceT s).2) with
  | error e => simp only [h1] at h; cases h
  | ok p =>
  obtain ⟨e1, s2⟩ := p
  simp only [h1] at h
  cases h
  exact ((exprFamily_suffix fuel).2.1 h1).trans (List.tail_suffix s)

/-- The statement dispatcher leaves a suffix of the stream. -/
theorem matchStatement_suffix {fuel : Nat} {s : List Token} {st : Statement}
    {s₁ : List Token} (h : matchStatement fuel s = .ok (st, s₁)) :
    s₁ <:+ s := by
  simp only [matchStatement] at h
  split at h
  · split at h
    · exact matchCreateStatement_suffix h
    · split at h
      · exact matchSelectStatement_suffix h
      · cases h
  · cases h

/-- C10: `match_identifier_list` accepts any interleaving of identifiers and
commas without error — it is a total function — returning exactly the
identifiers of the longest identifier-or-comma prefix in textual order and
stopping at the first other token; in particular the malformed list body
`a b , , c` yields `[a, b, c]`. -/
theorem identifier_list_interleaving :
    (∀ s : List Token,
      matchIdentifierList s =
        ((s.takeWhile identOrComma).filterMap identName,
          s.dropWhile identOrComma)) ∧
    matchIdentifierList [ident "a", ident "b", commaTok, commaTok, ident "c",
        rpar] = (["a", "b", "c"], [rpar]) := by
  refine ⟨fun s => ?_, by rfl⟩
  induction s with
  | nil => rfl
  | cons t ts ih =>
    by_cases hi : t.type = .IDENTIFIER
    · simp [matchIdentifierList, identOrComma, identName, hi,
        List.takeWhile_cons, List.dropWhile_cons, ih]
    · by_cases hc : t.type = .COMMA
      · simp [matchIdentifierList, identOrComma, identName, hi, hc,
          List.takeWhile_cons, List.dropWhile_cons, ih]
      · simp [matchIdentifierList, identOrComma, identName, hi, hc,
          List.takeWhile_cons, List.dropWhile_cons]

/-! ### Trailing-separator alignment (for the C8 claim)

Running a matcher on `toks` and on `toks ++ [semiTok]` produces the same
result with the appended semicolon still unconsumed: the matchers only
examine the appended position through `current`/`advance` lookaheads whose
decisions treat the end-of-input token and a semicolon identically (neither
satisfies any `expecting` matcher used by the source, names no operator and
no keyword).  The lemmas below prove this by simulation, one matcher at a
time. -/

/-- The current token of the empty stream is the end-of-input token. -/
theorem currentT_nil : currentT [] = eofToken := rfl

/-- Appending to a non-empty stream leaves the current token unchanged. -/
theorem currentT_snoc {s : List Token} (hs : s ≠ []) (c : Token) :
    currentT (s ++ [c]) = currentT s := by
  cases s with
  | nil => exact absurd rfl hs
  | cons a as => rfl

/-- Appending to a non-empty stream commutes with taking the tail. -/
theorem tail_snoc {s : List Token} (hs : s ≠ []) (c : Token) :
    (s ++ [c]).tail = s.tail ++ [c] := by
  cases s with
  | nil => exact absurd rfl hs
  | cons a as => rfl

/-- A successful validated advance is insensitive to a trailing appended
token, provided end-of-input satisfies none of the matchers (true of every
`expecting` set in the source); the validated position is then a real token,
so the cursor stays strictly before the appended one. -/
theorem advanceE_align {es : List Expecting} {s : List Token} {t : Token}
    {s₁ : List Token} (hno : es.any (matchesE eofToken) = false) (c : Token)
    (h : advanceE es s = .ok (t, s₁)) :
    advanceE es (s ++ [c]) = .ok (t, s₁ ++ [c]) ∧ s₁ ≠ [] := by
  obtain ⟨rfl, rfl, hm⟩ := advanceE_ok h
  cases s with
  | nil =>
    rw [List.tail_nil, currentT_nil, hno] at hm
    cases hm
  | cons a as =>
    cases as with
    | nil =>
      rw [List.tail_cons, currentT_nil, hno] at hm
      cases hm
    | cons b bs =>
      refine ⟨?_, by simp⟩
      have hb : currentT (a :: b :: bs).tail = b := rfl
      rw [hb] at hm ⊢
      simp [advanceE, advanceT, currentT, hm]

/-- A successful current-token validation is insensitive to a trailing
appended token, provided end-of-input satisfies none of the matchers; the
stream is then non-empty. -/
theorem checkE_align {es : List Expecting} {s : List Token} {t : Token}
    (hno : es.any (matchesE eofToken) = false) (c : Token)
    (h : checkE es s = .ok t) :
    checkE es (s ++ [c]) = .ok t ∧ s ≠ [] := by
  obtain ⟨rfl, hm⟩ := checkE_ok h
  cases s with
  | nil =>
    rw [currentT_nil, hno] at hm
    cases hm
  | cons a as =>
    refine ⟨?_, by simp⟩
    have ha : currentT (a :: as) = a := rfl
    rw [ha] at hm ⊢
    simp [checkE, currentT, hm]

/-- The identifier-list matcher ignores a trailing appended token that is
neither an identifier nor a comma, leaving it unconsumed. -/
theorem matchIdentifierList_align {c : Token} (hcid : c.type ≠ .IDENTIFIER)
    (hcc : c.type ≠ .COMMA) : ∀ s : List Token,
    matchIdentifierList (s ++ [c]) =
      ((matchIdentifierList s).1, (matchIdentifierList s).2 ++ [c]) := by
  intro s
  induction s with
  | nil => simp [matchIdentifierList, hcid, hcc]
  | cons t ts ih =>
    by_cases h1 : t.type = TokenType.IDENTIFIER
    · simp [matchIdentifierList, h1, ih]
    · by_cases h2 : t.type = TokenType.COMMA
      · simp [matchIdentifierList, h1, h2, ih]
      · simp [matchIdentifierList, h1, h2]

/-- The prefix matcher fails on the exhausted stream. -/
theorem matchPrefixE_nil (fuel : Nat) :
    ∃ e, matchPrefixE fuel [] = .error e := by
  cases fuel with
  | zero => exact ⟨.outOfFuel, rfl⟩
  | succ fuel => exact ⟨.syntaxError, rfl⟩

/-- The expression matcher fails on the exhausted stream. -/
theorem matchExpressionAux_nil (fuel : Nat) (p : Int) :
    ∃ e, matchExpressionAux fuel p [] = .error e := by
  cases fuel with
  | zero => exact ⟨.outOfFuel, rfl⟩
  | succ fuel =>
    obtain ⟨e, he⟩ := matchPrefixE_nil fuel
    exact ⟨e, by simp [matchExpressionAux, he]⟩

/-- The expression family is insensitive to a trailing appended semicolon:
its value names no operator (`PRECEDENCE` has no `";"` entry) and no prefix
form, so every decision taken at the appended position matches the decision
taken at end of input. -/
theorem exprFamily_align (fuel : Nat) :
    (∀ {s v s₁}, matchPrefixE fuel s = .ok (v, s₁) →
      matchPrefixE fuel (s ++ [semiTok]) = .ok (v, s₁ ++ [semiTok])) ∧
    (∀ {prec s v s₁}, matchExpressionAux fuel prec s = .ok (v, s₁) →
      matchExpressionAux fuel prec (s ++ [semiTok]) =
        .ok (v, s₁ ++ [semiTok])) ∧
    (∀ {prec left s v s₁}, exprLoop fuel prec left s = .ok (v, s₁) →
      exprLoop fuel prec left (s ++ [semiTok]) = .ok (v, s₁ ++ [semiTok])) ∧
    (∀ {left p s v s₁}, matchInfixE fuel left p s = .ok (v, s₁) →
      matchInfixE fuel left p (s ++ [semiTok]) =
        .ok (v, s₁ ++ [semiTok])) := by
  induction fuel with
  | zero =>
    refine ⟨fun {s v s₁} h => ?_, fun {prec s v s₁} h => ?_,
      fun {prec left s v s₁} h => ?_, fun {left p s v s₁} h => ?_⟩
    · simp [matchPrefixE] at h
    · simp [matchExpressionAux] at h
    · simp [exprLoop] at h
    · simp [matchInfixE] at h
  | succ fuel ih =>
    obtain ⟨ihP, ihE, ihL, ihI⟩ := ih
    have hP : ∀ {s v s₁}, matchPrefixE (fuel + 1) s = .ok (v, s₁) →
        matchPrefixE (fuel + 1) (s ++ [semiTok]) =
          .ok (v, s₁ ++ [semiTok]) := by
      intro s v s₁ h
      cases s with
      | nil =>
        obtain ⟨e, he⟩ := matchPrefixE_nil (fuel + 1)
        rw [he] at h
        cases h
      | cons a as =>
        simp only [matchPrefixE, advanceT, List.tail_cons, currentT,
          List.headD_cons] at h
        simp only [List.cons_append, matchPrefixE, advanceT, List.tail_cons,
          currentT, List.headD_cons]
        cases htype : a.type <;> simp only [htype] at h ⊢
        case IDENTIFIER => cases h; rfl
        case STRING => cases h; rfl
        case INTEGER => cases h; rfl
        case LEFT_PARENTHESIS =>
          cases h1 : matchExpressionAux fuel (-1) as with
          | error e => simp only [h1] at h; cases h
          | ok p =>
            obtain ⟨e1, s2⟩ := p
            simp only [h1] at h
            simp only [ihE h1]
            cases h2 : advanceE [.kind .RIGHT_PARENTHESIS] s2 with
            | error e => simp only [h2] at h; cases h
            | ok p2 =>
              obtain ⟨t2, s3⟩ := p2
              obtain ⟨h2a, h2ne⟩ := advanceE_align (by decide) semiTok h2
              simp only [h2] at h
              simp only [h2a]
              cases h
              rw [tail_snoc h2ne semiTok]
        all_goals cases h
    have hI : ∀ {left p s v s₁}, matchInfixE (fuel + 1) left p s =
        .ok (v, s₁) → matchInfixE (fuel + 1) left p (s ++ [semiTok]) =
          .ok (v, s₁ ++ [semiTok]) := by
      intro left p s v s₁ h
      cases s with
      | nil =>
        simp only [matchInfixE, advanceT, List.tail_nil] at h
        obtain ⟨e, he⟩ := matchExpressionAux_nil fuel (p : Int)
        rw [he] at h
        cases h
      | cons a as =>
        simp only [matchInfixE, advanceT, List.tail_cons, currentT,
          List.headD_cons] at h
        simp only [List.cons_append, matchInfixE, advanceT, List.tail_cons,
          currentT, List.headD_cons]
        cases h1 : matchExpressionAux fuel (p : Int) as with
        | error e => simp only [h1] at h; cases h
        | ok p2 =>
          obtain ⟨r1, s2⟩ := p2
          simp only [h1] at h
          simp only [ihE h1]
          cases h
          rfl
    have hL : ∀ {prec left s v s₁}, exprLoop (fuel + 1) prec left s =
        .ok (v, s₁) → exprLoop (fuel + 1) prec left (s ++ [semiTok]) =
          .ok (v, s₁ ++ [semiTok]) := by
      intro prec left s v s₁ h
      simp only [exprLoop] at h ⊢
      cases s with
      | nil =>
        have hp : PRECEDENCE (currentT ([] : List Token)).value = none := rfl
        have hq :
            PRECEDENCE (currentT (([] : List Token) ++ [semiTok])).value =
              none := rfl
        rw [hp] at h
        rw [hq]
        cases h
        rfl
      | cons a as =>
        simp only [currentT, List.headD_cons] at h
        simp only [List.cons_append, currentT, List.headD_cons]
        cases hpre : PRECEDENCE a.value with
        | none => simp only [hpre] at h ⊢; cases h; rfl
        | some pp =>
          simp only [hpre] at h ⊢
          by_cases hge : prec ≥ (pp : Int)
          · simp only [if_pos hge] at h ⊢
            cases h
            rfl
          · simp only [if_neg hge] at h ⊢
            cases h1 : matchInfixE fuel left pp (a :: as) with
            | error e => simp only [h1] at h; cases h
            | ok p2 =>
              obtain ⟨l1, s2⟩ := p2
              have h1a := ihI h1
              simp only [List.cons_append] at h1a
              simp only [h1] at h
              simp only [h1a]
              exact ihL h
    have hE : ∀ {prec s v s₁}, matchExpressionAux (fuel + 1) prec s =
        .ok (v, s₁) → matchExpressionAux (fuel + 1) prec (s ++ [semiTok]) =
          .ok (v, s₁ ++ [semiTok]) := by
      intro prec s v s₁ h
      simp only [matchExpressionAux] at h ⊢
      cases h1 : matchPrefixE fuel s with
      | error e => simp only [h1] at h; cases h
      | ok p =>
        obtain ⟨l1, s2⟩ := p
        simp only [h1] at h
        simp only [ihP h1]
        exact ihL h
    exact ⟨hP, hE, hL, hI⟩

/-- The default-floor expression matcher is insensitive to a trailing
appended semicolon. -/
theorem matchExpression_align {fuel : Nat} {s : List Token} {v : Expression}
    {s₁ : List Token} (h : matchExpression fuel s = .ok (v, s₁)) :
    matchExpression fuel (s ++ [semiTok]) = .ok (v, s₁ ++ [semiTok]) :=
  (exprFamily_align fuel).2.1 h

/-- The action decoder is insensitive to a trailing appended semicolon. -/
theorem actionStep_align {t2 : Token} {s : List Token} {v : OnDeleteOrUpdate}
    {s₁ : List Token} (hs : s ≠ []) (h : actionStep t2 s = .ok (v, s₁)) :
    actionStep t2 (s ++ [semiTok]) = .ok (v, s₁ ++ [semiTok]) ∧ s₁ ≠ [] := by
  unfold actionStep at h ⊢
  by_cases c1 : t2.value = "SET"
  · simp only [if_pos c1] at h ⊢
    cases h1 : advanceE [.word "NULL", .word "DEFAULT"] s with
    | error e => simp only [h1] at h; cases h
    | ok p =>
      obtain ⟨t3, s2⟩ := p
      obtain ⟨h1a, h1ne⟩ := advanceE_align (by decide) semiTok h1
      simp only [h1] at h
      simp only [h1a]
      cases h
      exact ⟨rfl, h1ne⟩
  · by_cases c2 : t2.value = "NO"
    · simp only [if_neg c1, if_pos c2] at h ⊢
      cases h1 : advanceE [.word "ACTION"] s with
      | error e => simp only [h1] at h; cases h
      | ok p =>
        obtain ⟨t3, s2⟩ := p
        obtain ⟨h1a, h1ne⟩ := advanceE_align (by decide) semiTok h1
        simp only [h1] at h
        simp only [h1a]
        cases h
        exact ⟨rfl, h1ne⟩
    · by_cases c3 : t2.value = "CASCADE"
      · simp only [if_neg c1, if_neg c2, if_pos c3] at h ⊢
        cases h
        exact ⟨rfl, hs⟩
      · by_cases c4 : t2.value = "RESTRICT"
        · simp only [if_neg c1, if_neg c2, if_neg c3, if_pos c4] at h ⊢
          cases h
          exact ⟨rfl, hs⟩
        · simp only [if_neg c1, if_neg c2, if_neg c3, if_neg c4] at h
          cases h

/-- The deferrability polarity step is insensitive to a trailing appended
semicolon. -/
theorem deferrablePolarity_align {token : Token} {f : FKFields}
    {s : List Token} {g : FKFields} {s₁ : List Token} (hs : s ≠ [])
    (h : deferrablePolarity token f s = .ok (g, s₁)) :
    deferrablePolarity token f (s ++ [semiTok]) = .ok (g, s₁ ++ [semiTok]) ∧
      s₁ ≠ [] := by
  unfold deferrablePolarity at h ⊢
  by_cases c1 : token.value = "NOT"
  · simp only [if_pos c1] at h ⊢
    cases h1 : advanceE [.word "DEFERRABLE"] s with
    | error e => simp only [h1] at h; cases h
    | ok p =>
      obtain ⟨t3, s2⟩ := p
      obtain ⟨h1a, h1ne⟩ := advanceE_align (by decide) semiTok h1
      simp only [h1] at h
      simp only [h1a]
      cases h
      exact ⟨rfl, h1ne⟩
  · simp only [if_neg c1] at h ⊢
    cases h
    exact ⟨rfl, hs⟩

/-- The `[NOT] DEFERRABLE ...` arm is insensitive to a trailing appended
semicolon: when its optional-INITIALLY lookahead reads the appended token, a
semicolon is not the keyword `INITIALLY`, so both runs break identically. -/
theorem deferrableStep_align {token : Token} {f : FKFields} {s : List Token}
    {g : FKFields} {s₁ : List Token} (hs : s ≠ [])
    (h : deferrableStep token f s = .ok (g, s₁)) :
    deferrableStep token f (s ++ [semiTok]) = .ok (g, s₁ ++ [semiTok]) := by
  unfold deferrableStep at h ⊢
  cases h1 : deferrablePolarity token f s with
  | error e => simp only [h1] at h; cases h
  | ok p =>
  obtain ⟨f1, s2⟩ := p
  obtain ⟨h1a, h1ne⟩ := deferrablePolarity_align hs h1
  simp only [h1, advanceT] at h
  simp only [h1a, advanceT]
  rw [tail_snoc h1ne semiTok]
  cases hs2 : s2.tail with
  | nil =>
    rw [hs2] at h
    have hcond : ¬((currentT ([] : List Token)).type = TokenType.KEYWORD ∧
        (currentT ([] : List Token)).value = "INITIALLY") := by decide
    rw [if_pos hcond] at h
    have hcond2 : ¬((currentT (([] : List Token) ++ [semiTok])).type =
        TokenType.KEYWORD ∧
        (currentT (([] : List Token) ++ [semiTok])).value = "INITIALLY") := by
      decide
    rw [if_pos hcond2]
    cases h
    rfl
  | cons b bs =>
    rw [hs2] at h
    rw [currentT_snoc (List.cons_ne_nil b bs) semiTok]
    have hb : currentT (b :: bs) = b := rfl
    rw [hb] at h ⊢
    by_cases cI : b.type = TokenType.KEYWORD ∧ b.value = "INITIALLY"
    · rw [if_neg (not_not_intro cI)] at h ⊢
      cases h2 : advanceE [.word "DEFERRED", .word "IMMEDIATE"] (b :: bs) with
      | error e => simp only [h2] at h; cases h
      | ok p2 =>
        obtain ⟨t3, s3⟩ := p2
        obtain ⟨h2a, h2ne⟩ := advanceE_align (by decide) semiTok h2
        simp only [h2, advanceT] at h
        simp only [h2a, advanceT]
        rw [tail_snoc h2ne semiTok]
        cases h
        rfl
    · rw [if_pos cI] at h ⊢
      cases h
      rfl

/-- The qualifier loop is insensitive to a trailing appended semicolon: a
semicolon read at the appended position names no qualifier, exactly as end of
input names none. -/
theorem clauseLoop_align {fuel : Nat} {f : FKFields} {s : List Token}
    {g : FKFields} {s₁ : List Token}
    (h : clauseLoop fuel f (currentT s) s = .ok (g, s₁)) :
    clauseLoop fuel f (currentT (s ++ [semiTok])) (s ++ [semiTok]) =
      .ok (g, s₁ ++ [semiTok]) := by
  induction fuel generalizing f s g s₁ with
  | zero => simp [clauseLoop] at h
  | succ fuel ih =>
    cases s with
    | nil =>
      have h0 : clauseLoop (fuel + 1) f (currentT ([] : List Token)) [] =
          .ok (f, []) := rfl
      rw [h0] at h
      cases h
      rfl
    | cons a as =>
      rw [currentT_snoc (List.cons_ne_nil a as) semiTok]
      unfold clauseLoop at h ⊢
      by_cases hON : (currentT (a :: as)).value = "ON"
      · simp only [if_pos hON] at h ⊢
        cases h1 : advanceE [.word "DELETE", .word "UPDATE"] (a :: as) with
        | error e => simp only [h1] at h; cases h
        | ok p =>
          obtain ⟨du, s2⟩ := p
          obtain ⟨h1a, h1ne⟩ := advanceE_align (by decide) semiTok h1
          simp only [h1] at h
          simp only [h1a]
          cases h2 : advanceE [.word "SET", .word "CASCADE", .word "RESTRICT",
              .word "NO"] s2 with
          | error e => simp only [h2] at h; cases h
          | ok p2 =>
            obtain ⟨t2, s3⟩ := p2
            obtain ⟨h2a, h2ne⟩ := advanceE_align (by decide) semiTok h2
            simp only [h2] at h
            simp only [h2a]
            cases h3 : actionStep t2 s3 with
            | error e => simp only [h3] at h; cases h
            | ok p3 =>
              obtain ⟨value, s4⟩ := p3
              obtain ⟨h3a, h3ne⟩ := actionStep_align h2ne h3
              simp only [h3, advanceT] at h
              simp only [h3a, advanceT]
              rw [tail_snoc h3ne semiTok]
              exact ih h
      · by_cases hM : (currentT (a :: as)).value = "MATCH"
        · simp only [if_neg hON, if_pos hM] at h ⊢
          cases h1 : advanceE [.word "SIMPLE", .word "FULL", .word "PARTIAL"]
              (a :: as) with
          | error e => simp only [h1] at h; cases h
          | ok p =>
            obtain ⟨mt, s2⟩ := p
            obtain ⟨h1a, h1ne⟩ := advanceE_align (by decide) semiTok h1
            simp only [h1, advanceT] at h
            simp only [h1a, advanceT]
            rw [tail_snoc h1ne semiTok]
            exact ih h
        · by_cases hD : (currentT (a :: as)).value = "NOT" ∨
              (currentT (a :: as)).value = "DEFERRABLE"
          · simp only [if_neg hON, if_neg hM, if_pos hD] at h ⊢
            exact deferrableStep_align (List.cons_ne_nil a as) h
          · simp only [if_neg hON, if_neg hM, if_neg hD] at h ⊢
            cases h
            rfl

/-- The foreign-column-list step is insensitive to a trailing appended
semicolon; its lookahead token is always the then-current token. -/
theorem foreignColumnsStep_align {s : List Token} {cols : List String}
    {t : Token} {s₁ : List Token}
    (h : foreignColumnsStep (currentT s) s = .ok ((cols, t), s₁)) :
    foreignColumnsStep (currentT (s ++ [semiTok])) (s ++ [semiTok]) =
      .ok ((cols, currentT (s₁ ++ [semiTok])), s₁ ++ [semiTok]) ∧
      t = currentT s₁ := by
  cases s with
  | nil =>
    have h0 : foreignColumnsStep (currentT ([] : List Token)) [] =
        .ok (([], eofToken), []) := rfl
    rw [h0] at h
    cases h
    exact ⟨rfl, rfl⟩
  | cons a as =>
    rw [currentT_snoc (List.cons_ne_nil a as) semiTok]
    simp only [foreignColumnsStep, advanceT] at h ⊢
    rw [tail_snoc (List.cons_ne_nil a as) semiTok]
    have ha : (a :: as).tail = as := rfl
    rw [ha] at h ⊢
    by_cases hlp : (currentT (a :: as)).type = TokenType.LEFT_PARENTHESIS
    · simp only [if_pos hlp] at h ⊢
      rw [matchIdentifierList_align (by decide) (by decide) as]
      cases h4 : checkE [.kind .RIGHT_PARENTHESIS]
          (matchIdentifierList as).2 with
      | error e => simp only [h4] at h; cases h
      | ok tk =>
        obtain ⟨h4a, h4ne⟩ := checkE_align (by decide) semiTok h4
        simp only [h4] at h
        simp only [h4a]
        rw [tail_snoc h4ne semiTok]
        cases h
        exact ⟨rfl, rfl⟩
    · simp only [if_neg hlp] at h ⊢
      cases h
      rw [currentT_snoc (List.cons_ne_nil a as) semiTok]
      exact ⟨rfl, rfl⟩

/-- The foreign-key clause matcher is insensitive to a trailing appended
semicolon. -/
theorem matchForeignKeyClause_align {fuel : Nat} {cols : List String}
    {s : List Token} {fk : ForeignKeyConstraint} {s₁ : List Token}
    (h : matchForeignKeyClause fuel cols s = .ok (fk, s₁)) :
    matchForeignKeyClause fuel cols (s ++ [semiTok]) =
      .ok (fk, s₁ ++ [semiTok]) := by
  unfold matchForeignKeyClause at h ⊢
  cases h1 : checkE [.word "REFERENCES"] s with
  | error e => simp only [h1] at h; cases h
  | ok tk =>
  obtain ⟨h1a, -⟩ := checkE_align (by decide) semiTok h1
  simp only [h1] at h
  simp only [h1a]
  cases h2 : advanceE [.kind .IDENTIFIER] s with
  | error e => simp only [h2] at h; cases h
  | ok p =>
  obtain ⟨ftTok, s2⟩ := p
  obtain ⟨h2a, h2ne⟩ := advanceE_align (by decide) semiTok h2
  simp only [h2, advanceT] at h
  simp only [h2a, advanceT]
  rw [tail_snoc h2ne semiTok]
  cases h3 : foreignColumnsStep (currentT s2.tail) s2.tail with
  | error e => simp only [h3] at h; cases h
  | ok p2 =>
  obtain ⟨⟨fcols, tok2⟩, s3⟩ := p2
  obtain ⟨h3a, h3t⟩ := foreignColumnsStep_align h3
  simp only [h3] at h
  simp only [h3a]
  rw [h3t] at h
  cases h4 : clauseLoop fuel initFields (currentT s3) s3 with
  | error e => simp only [h4] at h; cases h
  | ok p3 =>
  obtain ⟨f1, s4⟩ := p3
  have h4a := clauseLoop_align h4
  simp only [h4] at h
  simp only [h4a]
  cases h
  rfl

/-- The table-level foreign-key matcher is insensitive to a trailing appended
semicolon. -/
theorem matchForeignKeyConstraint_align {fuel : Nat} {s : List Token}
    {fk : ForeignKeyConstraint} {s₁ : List Token}
    (h : matchForeignKeyConstraint fuel s = .ok (fk, s₁)) :
    matchForeignKeyConstraint fuel (s ++ [semiTok]) =
      .ok (fk, s₁ ++ [semiTok]) := by
  unfold matchForeignKeyConstraint at h ⊢
  cases h1 : checkE [.word "FOREIGN"] s with
  | error e => simp only [h1] at h; cases h
  | ok tk =>
  obtain ⟨h1a, -⟩ := checkE_align (by decide) semiTok h1
  simp only [h1] at h
  simp only [h1a]
  cases h2 : advanceE [.word "KEY"] s with
  | error e => simp only [h2] at h; cases h
  | ok p =>
  obtain ⟨t1, s2⟩ := p
  obtain ⟨h2a, -⟩ := advanceE_align (by decide) semiTok h2
  simp only [h2] at h
  simp only [h2a]
  cases h3 : advanceE [.kind .LEFT_PARENTHESIS] s2 with
  | error e => simp only [h3] at h; cases h
  | ok p2 =>
  obtain ⟨t2, s3⟩ := p2
  obtain ⟨h3a, h3ne⟩ := advanceE_align (by decide) semiTok h3
  simp only [h3, advanceT] at h
  simp only [h3a, advanceT]
  rw [tail_snoc h3ne semiTok]
  rw [matchIdentifierList_align (by decide) (by decide) s3.tail]
  cases h4 : checkE [.kind .RIGHT_PARENTHESIS]
      (matchIdentifierList s3.tail).2 with
  | error e => simp only [h4] at h; cases h
  | ok tk2 =>
  obtain ⟨h4a, h4ne⟩ := checkE_align (by decide) semiTok h4
  simp only [h4] at h
  simp only [h4a]
  rw [tail_snoc h4ne semiTok]
  exact matchForeignKeyClause_align h

/-- The primary-key constraint matcher is insensitive to a trailing appended
semicolon. -/
theorem matchPrimaryKeyConstraint_align {s : List Token}
    {c : ColumnConstraint} {s₁ : List Token}
    (h : matchPrimaryKeyConstraint s = .ok (c, s₁)) :
    matchPrimaryKeyConstraint (s ++ [semiTok]) = .ok (c, s₁ ++ [semiTok]) := by
  unfold matchPrimaryKeyConstraint at h ⊢
  cases h1 : checkE [.word "PRIMARY"] s with
  | error e => simp only [h1] at h; cases h
  | ok tk =>
  obtain ⟨h1a, -⟩ := checkE_align (by decide) semiTok h1
  simp only [h1] at h
  simp only [h1a]
  cases h2 : advanceE [.word "KEY"] s with
  | error e => simp only [h2] at h; cases h
  | ok p =>
  obtain ⟨t1, s2⟩ := p
  obtain ⟨h2a, h2ne⟩ := advanceE_align (by decide) semiTok h2
  simp only [h2, advanceT] at h
  simp only [h2a, advanceT]
  rw [tail_snoc h2ne semiTok]
  cases h
  rfl

/-- The not-null constraint matcher is insensitive to a trailing appended
semicolon. -/
theorem matchNotNullConstraint_align {s : List Token} {c : ColumnConstraint}
    {s₁ : List Token} (h : matchNotNullConstraint s = .ok (c, s₁)) :
    matchNotNullConstraint (s ++ [semiTok]) = .ok (c, s₁ ++ [semiTok]) := by
  unfold matchNotNullConstraint at h ⊢
  cases h1 : checkE [.word "NOT"] s with
  | error e => simp only [h1] at h; cases h
  | ok tk =>
  obtain ⟨h1a, -⟩ := checkE_align (by decide) semiTok h1
  simp only [h1] at h
  simp only [h1a]
  cases h2 : advanceE [.word "NULL"] s with
  | error e => simp only [h2] at h; cases h
  | ok p =>
  obtain ⟨t1, s2⟩ := p
  obtain ⟨h2a, h2ne⟩ := advanceE_align (by decide) semiTok h2
  simp only [h2, advanceT] at h
  simp only [h2a, advanceT]
  rw [tail_snoc h2ne semiTok]
  cases h
  rfl

/-- The collate constraint matcher is insensitive to a trailing appended
semicolon. -/
theorem matchCollateConstraint_align {s : List Token} {c : ColumnConstraint}
    {s₁ : List Token} (h : matchCollateConstraint s = .ok (c, s₁)) :
    matchCollateConstraint (s ++ [semiTok]) = .ok (c, s₁ ++ [semiTok]) := by
  unfold matchCollateConstraint at h ⊢
  cases h1 : checkE [.word "COLLATE"] s with
  | error e => simp only [h1] at h; cases h
  | ok tk =>
  obtain ⟨h1a, -⟩ := checkE_align (by decide) semiTok h1
  simp only [h1] at h
  simp only [h1a]
  cases h2 : advanceE [.pair .IDENTIFIER "BINARY", .pair .IDENTIFIER "NOCASE",
      .pair .IDENTIFIER "RTRIM"] s with
  | error e => simp only [h2] at h; cases h
  | ok p =>
  obtain ⟨st, s2⟩ := p
  obtain ⟨h2a, h2ne⟩ := advanceE_align (by decide) semiTok h2
  simp only [h2, advanceT] at h
  simp only [h2a, advanceT]
  rw [tail_snoc h2ne semiTok]
  by_cases d1 : st.value = "NOCASE"
  · simp only [if_pos d1] at h ⊢
    cases h
    rfl
  · by_cases d2 : st.value = "RTRIM"
    · simp only [if_neg d1, if_pos d2] at h ⊢
      cases h
      rfl
    · by_cases d3 : st.value = "BINARY"
      · simp only [if_neg d1, if_neg d2, if_pos d3] at h ⊢
        cases h
        rfl
      · simp only [if_neg d1, if_neg d2, if_neg d3] at h
        cases h

/-- The check constraint matcher is insensitive to a trailing appended
semicolon. -/
theorem matchCheckConstraint_align {fuel : Nat} {s : List Token}
    {c : ColumnConstraint} {s₁ : List Token}
    (h : matchCheckConstraint fuel s = .ok (c, s₁)) :
    matchCheckConstraint fuel (s ++ [semiTok]) = .ok (c, s₁ ++ [semiTok]) := by
  unfold matchCheckConstraint at h ⊢
  cases h1 : checkE [.word "CHECK"] s with
  | error e => simp only [h1] at h; cases h
  | ok tk =>
  obtain ⟨h1a, -⟩ := checkE_align (by decide) semiTok h1
  simp only [h1] at h
  simp only [h1a]
  cases h2 : advanceE [.kind .LEFT_PARENTHESIS] s with
  | error e => simp only [h2] at h; cases h
  | ok p =>
  obtain ⟨t1, s2⟩ := p
  obtain ⟨h2a, h2ne⟩ := advanceE_align (by decide) semiTok h2
  simp only [h2, advanceT] at h
  simp only [h2a, advanceT]
  rw [tail_snoc h2ne semiTok]
  cases h3 : matchExpression fuel s2.tail with
  | error e => simp only [h3] at h; cases h
  | ok p2 =>
  obtain ⟨e1, s3⟩ := p2
  simp only [h3] at h
  simp only [matchExpression_align h3]
  cases h4 : checkE [.kind .RIGHT_PARENTHESIS] s3 with
  | error e => simp only [h4] at h; cases h
  | ok tk2 =>
  obtain ⟨h4a, h4ne⟩ := checkE_align (by decide) semiTok h4
  simp only [h4, advanceT] at h
  simp only [h4a, advanceT]
  rw [tail_snoc h4ne semiTok]
  cases h
  rfl

/-- The column-constraint dispatch is insensitive to a trailing appended
semicolon; its lookahead token is always the then-current token, and a
semicolon read there names no constraint keyword, exactly as end of input
names none. -/
theorem columnConstraintStep_align {fuel : Nat} {s : List Token}
    {cs : List ColumnConstraint} {s₁ : List Token}
    (h : columnConstraintStep fuel (currentT s) s = .ok (cs, s₁)) :
    columnConstraintStep fuel (currentT (s ++ [semiTok])) (s ++ [semiTok]) =
      .ok (cs, s₁ ++ [semiTok]) := by
  cases s with
  | nil =>
    have h0 : columnConstraintStep fuel (currentT ([] : List Token)) [] =
        .ok ([], []) := rfl
    rw [h0] at h
    cases h
    rfl
  | cons a as =>
    rw [currentT_snoc (List.cons_ne_nil a as) semiTok]
    unfold columnConstraintStep at h ⊢
    by_cases c1 : (currentT (a :: as)).type = TokenType.KEYWORD ∧
      (currentT (a :: as)).value = "PRIMARY"
    · simp only [if_pos c1] at h ⊢
      cases h1 : matchPrimaryKeyConstraint (a :: as) with
      | error e => simp [h1, Except.map] at h
      | ok p =>
        obtain ⟨cc, s2⟩ := p
        simp only [h1, Except.map] at h
        simp only [matchPrimaryKeyConstraint_align h1, Except.map]
        cases h
        rfl
    · simp only [if_neg c1] at h ⊢
      by_cases c2 : (currentT (a :: as)).type = TokenType.KEYWORD ∧
        (currentT (a :: as)).value = "NOT"
      · simp only [if_pos c2] at h ⊢
        cases h1 : matchNotNullConstraint (a :: as) with
        | error e => simp [h1, Except.map] at h
        | ok p =>
          obtain ⟨cc, s2⟩ := p
          simp only [h1, Except.map] at h
          simp only [matchNotNullConstraint_align h1, Except.map]
          cases h
          rfl
      · simp only [if_neg c2] at h ⊢
        by_cases c3 : (currentT (a :: as)).type = TokenType.KEYWORD ∧
          (currentT (a :: as)).value = "CHECK"
        · simp only [if_pos c3] at h ⊢
          cases h1 : matchCheckConstraint fuel (a :: as) with
          | error e => simp [h1, Except.map] at h
          | ok p =>
            obtain ⟨cc, s2⟩ := p
            simp only [h1, Except.map] at h
            simp only [matchCheckConstraint_align h1, Except.map]
            cases h
            rfl
        · simp only [if_neg c3] at h ⊢
          by_cases c4 : (currentT (a :: as)).type = TokenType.KEYWORD ∧
            (currentT (a :: as)).value = "COLLATE"
          · simp only [if_pos c4] at h ⊢
            cases h1 : matchCollateConstraint (a :: as) with
            | error e => simp [h1, Except.map] at h
            | ok p =>
              obtain ⟨cc, s2⟩ := p
              simp only [h1, Except.map] at h
              simp only [matchCollateConstraint_align h1, Except.map]
              cases h
              rfl
          · simp only [if_neg c4] at h ⊢
            by_cases c5 : (currentT (a :: as)).type = TokenType.KEYWORD ∧
              (currentT (a :: as)).value = "REFERENCES"
            · simp only [if_pos c5] at h ⊢
              cases h1 : matchForeignKeyClause fuel [] (a :: as) with
              | error e => simp [h1, Except.map] at h
              | ok p =>
                obtain ⟨fk, s2⟩ := p
                simp only [h1, Except.map] at h
                simp only [matchForeignKeyClause_align h1, Except.map]
                cases h
                rfl
            · simp only [if_neg c5] at h ⊢
              cases h
              rfl

/-- The column matcher is insensitive to a trailing appended semicolon. -/
theorem matchColumn_align {fuel : Nat} {s : List Token} {col : Column}
    {s₁ : List Token} (h : matchColumn fuel s = .ok (col, s₁)) :
    matchColumn fuel (s ++ [semiTok]) = .ok (col, s₁ ++ [semiTok]) := by
  unfold matchColumn at h ⊢
  cases h1 : checkE [.kind .IDENTIFIER] s with
  | error e => simp only [h1] at h; cases h
  | ok tk =>
  obtain ⟨h1a, -⟩ := checkE_align (by decide) semiTok h1
  simp only [h1] at h
  simp only [h1a]
  cases h2 : advanceE [.kind .IDENTIFIER] s with
  | error e => simp only [h2] at h; cases h
  | ok p =>
  obtain ⟨t1, s2⟩ := p
  obtain ⟨h2a, h2ne⟩ := advanceE_align (by decide) semiTok h2
  simp only [h2, advanceT] at h
  simp only [h2a, advanceT]
  rw [tail_snoc h2ne semiTok]
  cases h3 : columnConstraintStep fuel (currentT s2.tail) s2.tail with
  | error e => simp only [h3] at h; cases h
  | ok p2 =>
  obtain ⟨cs, s3⟩ := p2
  simp only [h3] at h
  simp only [columnConstraintStep_align h3]
  cases h
  rfl

/-- The column-or-constraint dispatch is insensitive to a trailing appended
semicolon (in the fall-through case both end of input and a semicolon yield
`none` with the stream untouched). -/
theorem matchColumnOrConstraint_align {fuel : Nat} {s : List Token}
    {v : Option ColumnOrConstraint} {s₁ : List Token}
    (h : matchColumnOrConstraint fuel s = .ok (v, s₁)) :
    matchColumnOrConstraint fuel (s ++ [semiTok]) =
      .ok (v, s₁ ++ [semiTok]) := by
  cases s with
  | nil =>
    have h0 : matchColumnOrConstraint fuel [] =
        .ok ((none : Option ColumnOrConstraint), []) := rfl
    rw [h0] at h
    cases h
    rfl
  | cons a as =>
    simp only [matchColumnOrConstraint] at h ⊢
    rw [currentT_snoc (List.cons_ne_nil a as) semiTok]
    by_cases c1 : (currentT (a :: as)).type = TokenType.KEYWORD ∧
      (currentT (a :: as)).value = "FOREIGN"
    · simp only [if_pos c1] at h ⊢
      cases h1 : matchForeignKeyConstraint fuel (a :: as) with
      | error e => simp [h1, Except.map] at h
      | ok p =>
        obtain ⟨fk, s2⟩ := p
        simp only [h1, Except.map] at h
        simp only [matchForeignKeyConstraint_align h1, Except.map]
        cases h
        rfl
    · simp only [if_neg c1] at h ⊢
      by_cases c2 : (currentT (a :: as)).type = TokenType.IDENTIFIER
      · simp only [if_pos c2] at h ⊢
        cases h1 : matchColumn fuel (a :: as) with
        | error e => simp [h1, Except.map] at h
        | ok p =>
          obtain ⟨cl, s2⟩ := p
          simp only [h1, Except.map] at h
          simp only [matchColumn_align h1, Except.map]
          cases h
          rfl
      · simp only [if_neg c2] at h ⊢
        cases h
        rfl

/-- The element loop is insensitive to a trailing appended semicolon; a
successful pass always ends at the closing parenthesis, so the final stream
is non-empty. -/
theorem createElements_align {fuel : Nat} {columns : List Column}
    {constraints : List (Option ForeignKeyConstraint)} {s : List Token}
    {v : List Column × List (Option ForeignKeyConstraint)} {s₁ : List Token}
    (hs : s ≠ []) (h : createElements fuel columns constraints s =
      .ok (v, s₁)) :
    createElements fuel columns constraints (s ++ [semiTok]) =
      .ok (v, s₁ ++ [semiTok]) ∧ s₁ ≠ [] := by
  induction fuel generalizing columns constraints s v s₁ with
  | zero => simp [createElements] at h
  | succ fuel ih =>
    cases s with
    | nil => exact absurd rfl hs
    | cons a as =>
      unfold createElements at h ⊢
      simp only [advanceT, List.cons_append, List.tail_cons] at h ⊢
      cases as with
      | nil =>
        rw [if_neg (by decide : ¬((currentT ([] : List Token)).type =
          TokenType.RIGHT_PARENTHESIS))] at h
        simp only [show matchColumnOrConstraint fuel [] =
          .ok ((none : Option ColumnOrConstraint), []) from rfl] at h
        simp only [elementStep] at h
        simp only [show checkE [Expecting.kind TokenType.COMMA,
          Expecting.kind TokenType.RIGHT_PARENTHESIS] ([] : List Token) =
          .error .syntaxError from rfl] at h
        cases h
      | cons b bs =>
        rw [currentT_snoc (List.cons_ne_nil b bs) semiTok]
        by_cases c1 : (currentT (b :: bs)).type = TokenType.RIGHT_PARENTHESIS
        · simp only [if_pos c1] at h ⊢
          cases h
          exact ⟨rfl, List.cons_ne_nil b bs⟩
        · simp only [if_neg c1] at h ⊢
          cases h1 : matchColumnOrConstraint fuel (b :: bs) with
          | error e => simp only [h1] at h; cases h
          | ok p =>
            obtain ⟨cc, s2⟩ := p
            simp only [h1] at h
            simp only [matchColumnOrConstraint_align h1]
            cases h2 : elementStep cc columns constraints with
            | error e => simp only [h2] at h; cases h
            | ok p2 =>
              obtain ⟨cols2, cons2⟩ := p2
              simp only [h2] at h ⊢
              cases h3 : checkE [.kind .COMMA, .kind .RIGHT_PARENTHESIS]
                  s2 with
              | error e => simp only [h3] at h; cases h
              | ok tk =>
                obtain ⟨h3a, h3ne⟩ := checkE_align (by decide) semiTok h3
                simp only [h3] at h
                simp only [h3a]
                by_cases c2 : tk.type = TokenType.RIGHT_PARENTHESIS
                · simp only [if_pos c2] at h ⊢
                  cases h
                  exact ⟨rfl, h3ne⟩
                · simp only [if_neg c2] at h ⊢
                  exact ih h3ne h

/-- The temporary-prefix step is insensitive to a trailing appended
semicolon. -/
theorem temporaryStep_align {token : Token} {s : List Token} {b : Bool}
    {s₁ : List Token} (hs : s ≠ []) (h : temporaryStep token s = .ok (b, s₁)) :
    temporaryStep token (s ++ [semiTok]) = .ok (b, s₁ ++ [semiTok]) ∧
      s₁ ≠ [] := by
  unfold temporaryStep at h ⊢
  by_cases c1 : token.value = "TEMPORARY" ∨ token.value = "TEMP"
  · simp only [if_pos c1] at h ⊢
    cases h1 : advanceE [.word "TABLE"] s with
    | error e => simp only [h1] at h; cases h
    | ok p =>
      obtain ⟨t1, s2⟩ := p
      obtain ⟨h1a, h1ne⟩ := advanceE_align (by decide) semiTok h1
      simp only [h1] at h
      simp only [h1a]
      cases h
      exact ⟨rfl, h1ne⟩
  · simp only [if_neg c1] at h ⊢
    cases h
    exact ⟨rfl, hs⟩

/-- The if-not-exists step is insensitive to a trailing appended
semicolon. -/
theorem ifNotExistsStep_align {token : Token} {s : List Token}
    {r : Bool × Token} {s₁ : List Token} (hs : s ≠ [])
    (h : ifNotExistsStep token s = .ok (r, s₁)) :
    ifNotExistsStep token (s ++ [semiTok]) = .ok (r, s₁ ++ [semiTok]) ∧
      s₁ ≠ [] := by
  unfold ifNotExistsStep at h ⊢
  by_cases c1 : token.value = "IF"
  · simp only [if_pos c1] at h ⊢
    cases h1 : advanceE [.word "NOT"] s with
    | error e => simp only [h1] at h; cases h
    | ok p =>
      obtain ⟨t1, s2⟩ := p
      obtain ⟨h1a, -⟩ := advanceE_align (by decide) semiTok h1
      simp only [h1] at h
      simp only [h1a]
      cases h2 : advanceE [.word "EXISTS"] s2 with
      | error e => simp only [h2] at h; cases h
      | ok p2 =>
        obtain ⟨t2, s3⟩ := p2
        obtain ⟨h2a, -⟩ := advanceE_align (by decide) semiTok h2
        simp only [h2] at h
        simp only [h2a]
        cases h3 : advanceE [.kind .IDENTIFIER] s3 with
        | error e => simp only [h3] at h; cases h
        | ok p3 =>
          obtain ⟨nt, s4⟩ := p3
          obtain ⟨h3a, h3ne⟩ := advanceE_align (by decide) semiTok h3
          simp only [h3] at h
          simp only [h3a]
          cases h
          exact ⟨rfl, h3ne⟩
  · simp only [if_neg c1] at h ⊢
    cases h
    exact ⟨rfl, hs⟩

/-- The table-name step is insensitive to a trailing appended semicolon. -/
theorem tableNameStep_align {name_token token : Token} {s : List Token}
    {nm : CreateName} {s₁ : List Token} (hs : s ≠ [])
    (h : tableNameStep name_token token s = .ok (nm, s₁)) :
    tableNameStep name_token token (s ++ [semiTok]) =
      .ok (nm, s₁ ++ [semiTok]) ∧ s₁ ≠ [] := by
  unfold tableNameStep at h ⊢
  by_cases c1 : token.type = TokenType.DOT
  · simp only [if_pos c1] at h ⊢
    cases h1 : advanceE [.kind .IDENTIFIER] s with
    | error e => simp only [h1] at h; cases h
    | ok p =>
      obtain ⟨t1, s2⟩ := p
      obtain ⟨h1a, -⟩ := advanceE_align (by decide) semiTok h1
      simp only [h1] at h
      simp only [h1a]
      cases h2 : advanceE [.kind .LEFT_PARENTHESIS] s2 with
      | error e => simp only [h2] at h; cases h
      | ok p2 =>
        obtain ⟨t2, s3⟩ := p2
        obtain ⟨h2a, h2ne⟩ := advanceE_align (by decide) semiTok h2
        simp only [h2] at h
        simp only [h2a]
        cases h
        exact ⟨rfl, h2ne⟩
  · simp only [if_neg c1] at h ⊢
    cases h
    exact ⟨rfl, hs⟩

/-- The without-rowid probe is insensitive to a trailing appended semicolon;
its lookahead token is always the then-current token, and a semicolon there
is not the keyword `WITHOUT`, exactly as end of input is not. -/
theorem withoutRowidStep_align {s : List Token} {b : Bool} {s₁ : List Token}
    (h : withoutRowidStep (currentT s) s = .ok (b, s₁)) :
    withoutRowidStep (currentT (s ++ [semiTok])) (s ++ [semiTok]) =
      .ok (b, s₁ ++ [semiTok]) := by
  cases s with
  | nil =>
    have h0 : withoutRowidStep (currentT ([] : List Token)) [] =
        .ok (false, []) := rfl
    rw [h0] at h
    cases h
    rfl
  | cons a as =>
    rw [currentT_snoc (List.cons_ne_nil a as) semiTok]
    unfold withoutRowidStep at h ⊢
    by_cases c1 : (currentT (a :: as)).type = TokenType.KEYWORD ∧
      (currentT (a :: as)).value = "WITHOUT"
    · simp only [if_pos c1] at h ⊢
      cases h1 : advanceE [.pair .IDENTIFIER "ROWID"] (a :: as) with
      | error e => simp only [h1] at h; cases h
      | ok p =>
        obtain ⟨t1, s2⟩ := p
        obtain ⟨h1a, -⟩ := advanceE_align (by decide) semiTok h1
        simp only [h1] at h
        simp only [h1a]
        cases h
        rfl
    · simp only [if_neg c1, pushT] at h ⊢
      cases h
      rfl

/-- The create-statement matcher is insensitive to a trailing appended
semicolon. -/
theorem matchCreateStatement_align {fuel : Nat} {s : List Token}
    {st : Statement} {s₁ : List Token}
    (h : matchCreateStatement fuel s = .ok (st, s₁)) :
    matchCreateStatement fuel (s ++ [semiTok]) = .ok (st, s₁ ++ [semiTok]) := by
  unfold matchCreateStatement at h ⊢
  cases h1 : advanceE [.word "TABLE", .word "TEMPORARY", .word "TEMP"] s with
  | error e => simp only [h1] at h; cases h
  | ok p =>
  obtain ⟨t1, s1⟩ := p
  obtain ⟨h1a, h1ne⟩ := advanceE_align (by decide) semiTok h1
  simp only [h1] at h
  simp only [h1a]
  cases h2 : temporaryStep t1 s1 with
  | error e => simp only [h2] at h; cases h
  | ok p2 =>
  obtain ⟨temp, s2⟩ := p2
  obtain ⟨h2a, h2ne⟩ := temporaryStep_align h1ne h2
  simp only [h2] at h
  simp only [h2a]
  cases h3 : advanceE [.word "IF", .kind .IDENTIFIER] s2 with
  | error e => simp only [h3] at h; cases h
  | ok p3 =>
  obtain ⟨t3, s3⟩ := p3
  obtain ⟨h3a, h3ne⟩ := advanceE_align (by decide) semiTok h3
  simp only [h3] at h
  simp only [h3a]
  cases h4 : ifNotExistsStep t3 s3 with
  | error e => simp only [h4] at h; cases h
  | ok p4 =>
  obtain ⟨⟨ine, nameTok⟩, s4⟩ := p4
  obtain ⟨h4a, h4ne⟩ := ifNotExistsStep_align h3ne h4
  simp only [h4] at h
  simp only [h4a]
  cases h5 : advanceE [.kind .DOT, .kind .LEFT_PARENTHESIS] s4 with
  | error e => simp only [h5] at h; cases h
  | ok p5 =>
  obtain ⟨t5, s5⟩ := p5
  obtain ⟨h5a, h5ne⟩ := advanceE_align (by decide) semiTok h5
  simp only [h5] at h
  simp only [h5a]
  cases h6 : tableNameStep nameTok t5 s5 with
  | error e => simp only [h6] at h; cases h
  | ok p6 =>
  obtain ⟨nm, s6⟩ := p6
  obtain ⟨h6a, h6ne⟩ := tableNameStep_align h5ne h6
  simp only [h6] at h
  simp only [h6a]
  cases h7 : createElements fuel [] [] s6 with
  | error e => simp only [h7] at h; cases h
  | ok p7 =>
  obtain ⟨⟨cols, cons⟩, s7⟩ := p7
  obtain ⟨h7a, h7ne⟩ := createElements_align h6ne h7
  simp only [h7, advanceT] at h
  simp only [h7a, advanceT]
  rw [tail_snoc h7ne semiTok]
  cases h8 : withoutRowidStep (currentT s7.tail) s7.tail with
  | error e => simp only [h8] at h; cases h
  | ok p8 =>
  obtain ⟨wr, s8⟩ := p8
  simp only [h8] at h
  simp only [withoutRowidStep_align h8]
  cases h
  rfl

/-- The select matcher is insensitive to a trailing appended semicolon. -/
theorem matchSelectStatement_align {fuel : Nat} {s : List Token}
    {st : Statement} {s₁ : List Token}
    (h : matchSelectStatement fuel s = .ok (st, s₁)) :
    matchSelectStatement fuel (s ++ [semiTok]) = .ok (st, s₁ ++ [semiTok]) := by
  cases s with
  | nil =>
    simp only [matchSelectStatement, advanceT, List.tail_nil] at h
    obtain ⟨e, he⟩ := matchExpressionAux_nil fuel (-1)
    rw [show matchExpression fuel ([] : List Token) =
      matchExpressionAux fuel (-1) [] from rfl, he] at h
    cases h
  | cons a as =>
    simp only [matchSelectStatement, advanceT, List.cons_append,
      List.tail_cons] at h ⊢
    cases h1 : matchExpression fuel as with
    | error e => simp only [h1] at h; cases h
    | ok p =>
      obtain ⟨e1, s2⟩ := p
      simp only [h1] at h
      simp only [matchExpression_align h1]
      cases h
      rfl

/-- The statement dispatcher is insensitive to a trailing appended
semicolon. -/
theorem matchStatement_align {fuel : Nat} {s : List Token} {st : Statement}
    {s₁ : List Token} (h : matchStatement fuel s = .ok (st, s₁)) :
    matchStatement fuel (s ++ [semiTok]) = .ok (st, s₁ ++ [semiTok]) := by
  simp only [matchStatement] at h ⊢
  by_cases c1 : (currentT s).type = TokenType.KEYWORD
  · have hs : s ≠ [] := by
      intro hnil
      rw [hnil, currentT_nil] at c1
      exact absurd c1 (by decide)
    rw [currentT_snoc hs semiTok]
    simp only [if_pos c1] at h ⊢
    by_cases c2 : (currentT s).value = "CREATE"
    · simp only [if_pos c2] at h ⊢
      exact matchCreateStatement_align h
    · simp only [if_neg c2] at h ⊢
      by_cases c3 : (currentT s).value = "SELECT"
      · simp only [if_pos c3] at h ⊢
        exact matchSelectStatement_align h
      · simp only [if_neg c3] at h
        cases h
  · simp only [if_neg c1] at h
    cases h

/-- A successful parse of a non-empty, semicolon-free token sequence is a
single statement whose matcher run ends with at most the lookahead token left:
after the statement the loop either is done, or demands a semicolon separator
that a semicolon-free input cannot supply. -/
theorem parse_ok_single {toks : List Token} {sts : List Statement}
    (hne : toks ≠ []) (hsemi : ∀ t ∈ toks, t.type ≠ TokenType.SEMICOLON)
    (h : parse toks = .ok sts) :
    ∃ st s₁, matchStatement (4 * toks.length + 15) toks = .ok (st, s₁) ∧
      s₁.tail = [] ∧ sts = [st] := by
  unfold parse at h
  rw [if_neg (by simpa [List.isEmpty_iff] using hne)] at h
  rw [show 4 * toks.length + 16 = 4 * toks.length + 15 + 1 by omega] at h
  unfold parseLoop at h
  cases hm : matchStatement (4 * toks.length + 15) toks with
  | error e => simp only [hm] at h; cases h
  | ok p =>
    obtain ⟨st, s₁⟩ := p
    simp only [hm] at h
    by_cases hd : doneT s₁ = true
    · simp only [if_pos hd, List.nil_append] at h
      cases h
      refine ⟨st, s₁, rfl, ?_, rfl⟩
      simpa [doneT, List.isEmpty_iff] using hd
    · simp only [if_neg hd] at h
      exfalso
      have hsuf : s₁ <:+ toks := matchStatement_suffix hm
      have htne : s₁.tail ≠ [] := by
        simpa [doneT, List.isEmpty_iff] using hd
      cases htl : s₁.tail with
      | nil => exact htne htl
      | cons b bs =>
        have hb : b ∈ toks := by
          have h2 : s₁.tail <:+ toks := (List.tail_suffix s₁).trans hsuf
          rw [htl] at h2
          exact h2.subset (List.mem_cons_self b bs)
        have hbty := hsemi b hb
        have hadv : advanceE [.kind .SEMICOLON] s₁ = .error .syntaxError := by
          simp only [advanceE, advanceT, htl]
          simp [currentT, matchesE, hbty]
        simp only [hadv] at h
        cases h

/-- C8: `parse` of an empty token stream returns the empty statement
sequence, and a trailing semicolon after the final statement is optional:
whenever a non-empty, semicolon-free token sequence (the rendering of a
well-formed statement) parses successfully, appending a single trailing
semicolon parses to the same statement sequence. -/
theorem trailing_semicolon_optional :
    parse [] = .ok [] ∧
    ∀ toks sts, toks ≠ [] → (∀ t ∈ toks, t.type ≠ TokenType.SEMICOLON) →
      parse toks = .ok sts → parse (toks ++ [semiTok]) = .ok sts := by
  refine ⟨rfl, fun toks sts hne hsemi h => ?_⟩
  obtain ⟨st, s₁, hm, hdone, rfl⟩ := parse_ok_single hne hsemi h
  have hm2 : matchStatement (4 * toks.length + 19) toks = .ok (st, s₁) :=
    matchStatement_mono (by omega) hm
  have hma := matchStatement_align hm2
  unfold parse
  rw [if_neg (by simp : ¬((toks ++ [semiTok]).isEmpty = true))]
  rw [show 4 * (toks ++ [semiTok]).length + 16 =
    4 * toks.length + 19 + 1 by simp; omega]
  unfold parseLoop
  simp only [hma]
  cases s₁ with
  | nil => simp [doneT]
  | cons x xs =>
    have hxs : xs = [] := by simpa using hdone
    subst hxs
    rfl

/-- Witness for C8 at `SELECT 1` / `SELECT 1;`. -/
theorem trailing_semicolon_optional_witness :
    parse [kw "SELECT", intTok "1"] = .ok [.select [.integerLit 1]] ∧
    parse [kw "SELECT", intTok "1", semiTok] =
      .ok [.select [.integerLit 1]] :=
  ⟨by rfl, trailing_semicolon_optional.2 [kw "SELECT", intTok "1"]
    [.select [.integerLit 1]] (by decide) (by decide) (by rfl)⟩

end SQLite
